import Mathlib

/-!
Voting system with fraud detection: a shallow embedding of `src/main.cpp`.

The class `VotingSystem` owns three stores:

* `voteCounts`    (`std::unordered_map<std::string, int>`), modelled by an association list
  in traversal order; `find` returns the first entry with the key, `operator[]` followed by a
  write updates that entry or, when the key is absent, adds a value-initialised entry;
* `voterRegistry` (`std::unordered_set<std::string>`), modelled by a `Finset String`;
* `fraudLogs`     (`std::vector<FraudLog>`), modelled by a `List FraudLog`.

A `std::string` is modelled by a `String`, one `Char` per `char`, so `length()` is
`String.length`.  The `int` counters are modelled by mathematical integers: signed overflow is
undefined in C++ and is outside this model.  The wall clock read by `getCurrentTimestamp` is an
argument `now` of `castVote`.  The line printed on `std::cout` by every branch is part of the
result of an operation, together with a tag naming the branch that was taken.

In `displayStats` the `double` arithmetic is carried out over the rationals, the call of
`std::sort` is an insertion sort driven by `CompareVotes`, and the printed table is returned as
a list of rows.
-/

namespace VotingSystem

/-- The record `struct FraudLog` (main.cpp, lines 26-30). -/
structure FraudLog where
  voterID : String
  timestamp : String
  attemptDetails : String
deriving DecidableEq, Repr

/-- The three data members of `class VotingSystem` (main.cpp, lines 20-31). -/
structure State where
  voteCounts : List (String × Int)
  voterRegistry : Finset String
  fraudLogs : List FraudLog
deriving DecidableEq

/-- The lookup `voteCounts.find(k)`: the count of the first entry whose key is `k`. -/
def mapFind : List (String × Int) → String → Option Int
  | [], _ => none
  | (k', v) :: rest, k => if k' = k then some v else mapFind rest k

/-- The access `voteCounts[k]` followed by a write `f`: the entry of `k` is rewritten in place;
an absent key is first inserted with the value-initialised count `0`. -/
def mapUpdate : List (String × Int) → String → (Int → Int) → List (String × Int)
  | [], k, f => [(k, f 0)]
  | (k', v) :: rest, k, f =>
    if k' = k then (k', f v) :: rest else (k', v) :: mapUpdate rest k f

/-- The keys of the ledger, in traversal order. -/
def keys (m : List (String × Int)) : List String := m.map Prod.fst

/-- The helper `isValidVoterID` (main.cpp, lines 44-47). -/
def isValidVoterID (voterID : String) : Bool :=
  !(voterID.length == 0) && decide (voterID.length ≥ 5)

/-- The helper `isValidCandidate` (main.cpp, lines 50-53). -/
def isValidCandidate (s : State) (candidate : String) : Bool :=
  (mapFind s.voteCounts candidate).isSome

/-- Which branch of `addCandidate` ran. -/
inductive AddOutcome where
  | Added
  | AlreadyExists
deriving DecidableEq, Repr

/-- What a call of `addCandidate` produces: the branch, the printed line, the new state. -/
structure AddResult where
  outcome : AddOutcome
  out : String
  state : State

/-- The method `addCandidate` (main.cpp, lines 65-72). -/
def addCandidate (s : State) (name : String) : AddResult :=
  if mapFind s.voteCounts name = none then
    { outcome := AddOutcome.Added
      out := "Candidate " ++ name ++ " added successfully."
      state := { s with voteCounts := mapUpdate s.voteCounts name (fun _ => 0) } }
  else
    { outcome := AddOutcome.AlreadyExists
      out := "Candidate " ++ name ++ " already exists."
      state := s }

/-- Which of the four `return` paths of `castVote` ran. -/
inductive VoteOutcome where
  | Accepted
  | RejectedInvalidVoterID
  | RejectedDuplicate
  | RejectedUnknownCandidate
deriving DecidableEq, Repr

/-- What a call of `castVote` produces: the returned `bool`, the branch, the printed line and
the new state. -/
structure CastResult where
  ret : Bool
  outcome : VoteOutcome
  out : String
  state : State

/-- The method `castVote` (main.cpp, lines 75-108); `now` is what `getCurrentTimestamp()`
returns during the call. -/
def castVote (s : State) (now voterID candidate : String) : CastResult :=
  if !isValidVoterID voterID then
    { ret := false
      outcome := VoteOutcome.RejectedInvalidVoterID
      out := "Invalid voter ID format."
      state := s }
  else if voterID ∈ s.voterRegistry then
    let log : FraudLog :=
      { voterID := voterID
        timestamp := now
        attemptDetails := "Attempted duplicate vote for " ++ candidate }
    { ret := false
      outcome := VoteOutcome.RejectedDuplicate
      out := "Fraud detected: Voter " ++ voterID ++ " has already voted."
      state := { s with fraudLogs := s.fraudLogs ++ [log] } }
  else if !isValidCandidate s candidate then
    { ret := false
      outcome := VoteOutcome.RejectedUnknownCandidate
      out := "Invalid candidate name."
      state := s }
  else
    { ret := true
      outcome := VoteOutcome.Accepted
      out := "Vote for " ++ candidate ++ " registered successfully."
      state :=
        { s with
          voterRegistry := insert voterID s.voterRegistry
          voteCounts := mapUpdate s.voteCounts candidate (fun v => v + 1) } }

/-- The accumulators `totalVotes`, `leadingCandidate`, `maxVotes` of `displayStats`. -/
structure Tally where
  totalVotes : Int
  leadingCandidate : String
  maxVotes : Int
deriving DecidableEq, Repr

/-- One iteration of the first loop of `displayStats` (main.cpp, lines 117-123). -/
def tallyStep (t : Tally) (pair : String × Int) : Tally :=
  if pair.2 > t.maxVotes then
    { totalVotes := t.totalVotes + pair.2, leadingCandidate := pair.1, maxVotes := pair.2 }
  else
    { t with totalVotes := t.totalVotes + pair.2 }

/-- The first loop of `displayStats` (main.cpp, lines 112-123). -/
def tally (m : List (String × Int)) : Tally :=
  m.foldl tallyStep { totalVotes := 0, leadingCandidate := "", maxVotes := 0 }

/-- The value of `totalVotes` after the first loop of `displayStats`. -/
def totalVotes (s : State) : Int := (tally s.voteCounts).totalVotes

/-- The members right after `clear()` on all three stores. -/
def cleared : State := { voteCounts := [], voterRegistry := ∅, fraudLogs := [] }

/-- The three `addCandidate` calls shared by the constructor and `resetSystem`. -/
def seedDefaults (s : State) : State :=
  (addCandidate (addCandidate (addCandidate s "Candidate1").state "Candidate2").state
    "Candidate3").state

/-- The constructor `VotingSystem()` (main.cpp, lines 57-62). -/
def construct : State := seedDefaults cleared

/-- The method `resetSystem` (main.cpp, lines 193-204). -/
def resetSystem (s : State) : State :=
  seedDefaults { s with voteCounts := [], voterRegistry := ∅, fraudLogs := [] }

/-- A call made by the menu loop of `main` on the system. -/
inductive Op where
  | add (name : String)
  | vote (now voterID candidate : String)
  | reset
deriving DecidableEq, Repr

/-- The state after one call. -/
def step (s : State) : Op → State
  | Op.add name => (addCandidate s name).state
  | Op.vote now voterID candidate => (castVote s now voterID candidate).state
  | Op.reset => resetSystem s

/-- The state after a sequence of calls, first call first. -/
def run (s : State) : List Op → State
  | [] => s
  | op :: ops => run (step s op) ops

/-- Whether a call is `resetSystem`. -/
def Op.isReset : Op → Bool
  | Op.reset => true
  | _ => false

/-- The number of `castVote` calls of a sequence that returned `true`. -/
def acceptedCount (s : State) : List Op → Nat
  | [] => 0
  | Op.vote now voterID candidate :: ops =>
    (if (castVote s now voterID candidate).ret then 1 else 0)
      + acceptedCount (castVote s now voterID candidate).state ops
  | op :: ops => acceptedCount (step s op) ops

/-- The entries logged by the `castVote` calls of a sequence that were rejected as duplicates
since construction or the last `resetSystem`, oldest first; `acc` holds those met so far. -/
def duplicateRejections (s : State) (acc : List FraudLog) : List Op → List FraudLog
  | [] => acc
  | Op.add name :: ops => duplicateRejections (addCandidate s name).state acc ops
  | Op.vote now voterID candidate :: ops =>
    duplicateRejections (castVote s now voterID candidate).state
      (if (castVote s now voterID candidate).outcome = VoteOutcome.RejectedDuplicate then
        acc ++ [{ voterID := voterID
                  timestamp := now
                  attemptDetails := "Attempted duplicate vote for " ++ candidate }]
      else acc) ops
  | Op.reset :: ops => duplicateRejections (resetSystem s) [] ops

/-- The comparison `CompareVotes::operator()` of `displayStats` (main.cpp, lines 144-148). -/
def CompareVotes (a b : String × Int) : Bool := decide (a.2 > b.2)

/-- One insertion of the sort: `x` goes behind the rows that `comp` puts before it. -/
def sortInsert (comp : String × Int → String × Int → Bool) (x : String × Int) :
    List (String × Int) → List (String × Int)
  | [] => [x]
  | y :: ys => if comp y x then y :: sortInsert comp x ys else x :: y :: ys

/-- The call `std::sort(begin, end, comp)` (main.cpp, line 149), modelled by the insertion
sort driven by `comp`; rows that `comp` does not separate keep their order. -/
def stdSort (comp : String × Int → String × Int → Bool) :
    List (String × Int) → List (String × Int)
  | [] => []
  | x :: xs => sortInsert comp x (stdSort comp xs)

/-- The vector `sortedResults` of `displayStats` after the sort (main.cpp, lines 137-149):
every pair of the ledger is copied in traversal order, then the copy is sorted. -/
def sortedResults (m : List (String × Int)) : List (String × Int) :=
  stdSort CompareVotes m

/-- The expression `(static_cast<double>(count) / totalVotes) * 100` (main.cpp, lines 153 and
165), over the rationals. -/
def percentage (count total : Int) : ℚ := ((count : ℚ) / (total : ℚ)) * 100

/-- The conversion `static_cast<int>(x)`: the fraction is cut off, towards zero. -/
def truncToInt (x : ℚ) : Int := Int.tdiv x.num x.den

/-- The expression `static_cast<int>(percentage / 5)` (main.cpp, line 154). -/
def barLength (pct : ℚ) : Int := truncToInt (pct / 5)

/-- The numbers printed on one line of the results table (main.cpp, lines 152-160). -/
structure ResultRow where
  candidate : String
  votes : Int
  percent : ℚ
  bar : Int
deriving DecidableEq, Repr

/-- What `displayStats` prints below the header: either the line "No votes have been cast
yet." or the table and the line on the leading candidate. -/
inductive Report where
  | NoVotesCast
  | Results (rows : List ResultRow) (leadingCandidate : String) (maxVotes : Int)
      (leadingPercent : ℚ)
deriving DecidableEq, Repr

/-- What a call of `displayStats` produces: the printed total, the report and the state. -/
structure StatsResult where
  totalVotes : Int
  report : Report
  state : State

/-- The row printed for one element of `sortedResults` (main.cpp, lines 152-160). -/
def resultRow (total : Int) (result : String × Int) : ResultRow :=
  { candidate := result.1
    votes := result.2
    percent := percentage result.2 total
    bar := barLength (percentage result.2 total) }

/-- The method `displayStats` (main.cpp, lines 111-169). -/
def displayStats (s : State) : StatsResult :=
  if (tally s.voteCounts).totalVotes > 0 then
    { totalVotes := (tally s.voteCounts).totalVotes
      report :=
        Report.Results
          ((sortedResults s.voteCounts).map (resultRow (tally s.voteCounts).totalVotes))
          (tally s.voteCounts).leadingCandidate
          (tally s.voteCounts).maxVotes
          (percentage (tally s.voteCounts).maxVotes (tally s.voteCounts).totalVotes)
      state := s }
  else
    { totalVotes := (tally s.voteCounts).totalVotes
      report := Report.NoVotesCast
      state := s }

/-- The digits of `n`, with a leading zero below ten. -/
def twoDigits (n : Nat) : String :=
  if n < 10 then "0" ++ toString n else toString n

/-- The output format `std::fixed << std::setprecision(2)` (main.cpp, lines 158 and 164) for a
value that is not negative: two decimals, rounded to the nearest hundredth, a tie to the even
one. -/
def showFixed2 (x : ℚ) : String :=
  let h : Int := ⌊x * 100⌋
  let r : ℚ := x * 100 - h
  let n : Nat := (if r > 1 / 2 ∨ (r = 1 / 2 ∧ h % 2 = 1) then h + 1 else h).toNat
  toString (n / 100) ++ "." ++ twoDigits (n % 100)

/-! ## Lemmas on the ledger -/

theorem mapFind_isSome_iff (m : List (String × Int)) (k : String) :
    (mapFind m k).isSome = true ↔ k ∈ keys m := by
  induction m with
  | nil => simp [mapFind, keys]
  | cons p rest ih =>
    obtain ⟨k', v⟩ := p
    by_cases h : k' = k
    · simp [mapFind, keys, h]
    · have h2 : ¬ k = k' := fun e => h e.symm
      simpa [mapFind, keys, h, h2] using ih

theorem mapFind_eq_none_iff (m : List (String × Int)) (k : String) :
    mapFind m k = none ↔ k ∉ keys m := by
  rw [← mapFind_isSome_iff]
  cases mapFind m k <;> simp

theorem tallyStep_totalVotes (t : Tally) (p : String × Int) :
    (tallyStep t p).totalVotes = t.totalVotes + p.2 := by
  unfold tallyStep
  split <;> rfl

theorem foldl_tallyStep_totalVotes (m : List (String × Int)) (t : Tally) :
    (m.foldl tallyStep t).totalVotes = t.totalVotes + (m.map Prod.snd).sum := by
  induction m generalizing t with
  | nil => simp
  | cons p rest ih =>
    simp only [List.foldl_cons, List.map_cons, List.sum_cons]
    rw [ih, tallyStep_totalVotes]
    ring

theorem tally_totalVotes (m : List (String × Int)) :
    (tally m).totalVotes = (m.map Prod.snd).sum := by
  unfold tally
  rw [foldl_tallyStep_totalVotes]
  simp

theorem sum_mapUpdate_of_mem (m : List (String × Int)) (k : String) (f : Int → Int)
    (h : k ∈ keys m) :
    ∃ v, mapFind m k = some v ∧
      ((mapUpdate m k f).map Prod.snd).sum = (m.map Prod.snd).sum - v + f v := by
  induction m with
  | nil => simp [keys] at h
  | cons p rest ih =>
    obtain ⟨k', v⟩ := p
    by_cases hk : k' = k
    · refine ⟨v, by simp [mapFind, hk], ?_⟩
      simp [mapUpdate, hk]
      ring
    · have h2 : k ∈ keys rest := by
        have : ¬ k = k' := fun e => hk e.symm
        simpa [keys, this] using h
      obtain ⟨w, hw, hs⟩ := ih h2
      refine ⟨w, by simp [mapFind, hk, hw], ?_⟩
      simp [mapUpdate, hk, hs]
      ring

theorem mapFind_mapUpdate_self (m : List (String × Int)) (k : String) (f : Int → Int) :
    mapFind (mapUpdate m k f) k = some (f ((mapFind m k).getD 0)) := by
  induction m with
  | nil => simp [mapFind, mapUpdate]
  | cons p rest ih =>
    obtain ⟨k', v⟩ := p
    by_cases hk : k' = k
    · simp [mapFind, mapUpdate, hk]
    · simp [mapFind, mapUpdate, hk, ih]

theorem mapFind_mapUpdate_of_ne (m : List (String × Int)) (k k2 : String) (f : Int → Int)
    (h : k2 ≠ k) : mapFind (mapUpdate m k f) k2 = mapFind m k2 := by
  have hne : ¬ k = k2 := fun e => h e.symm
  induction m with
  | nil => simp [mapFind, mapUpdate, hne]
  | cons p rest ih =>
    obtain ⟨k', v⟩ := p
    by_cases hk : k' = k
    · subst hk
      simp [mapFind, mapUpdate, hne]
    · by_cases hk2 : k' = k2
      · subst hk2
        simp [mapFind, mapUpdate, hk]
      · simp [mapFind, mapUpdate, hk, hk2, ih]

theorem isValidVoterID_iff (voterID : String) :
    isValidVoterID voterID = true ↔ 5 ≤ voterID.length := by
  unfold isValidVoterID
  simp only [Bool.and_eq_true, Bool.not_eq_true', beq_eq_false_iff_ne, ne_eq,
    decide_eq_true_eq]
  omega

/-! ## The four branches of `castVote` -/

theorem castVote_invalid (s : State) (now voterID candidate : String)
    (h : voterID.length < 5) :
    castVote s now voterID candidate =
      { ret := false
        outcome := VoteOutcome.RejectedInvalidVoterID
        out := "Invalid voter ID format."
        state := s } := by
  have hv : isValidVoterID voterID = false := by
    cases hb : isValidVoterID voterID
    · rfl
    · have := (isValidVoterID_iff voterID).1 hb
      omega
  simp [castVote, hv]

theorem castVote_duplicate (s : State) (now voterID candidate : String)
    (hlen : 5 ≤ voterID.length) (hmem : voterID ∈ s.voterRegistry) :
    castVote s now voterID candidate =
      { ret := false
        outcome := VoteOutcome.RejectedDuplicate
        out := "Fraud detected: Voter " ++ voterID ++ " has already voted."
        state :=
          { s with
            fraudLogs := s.fraudLogs ++
              [{ voterID := voterID
                 timestamp := now
                 attemptDetails := "Attempted duplicate vote for " ++ candidate }] } } := by
  have hv : isValidVoterID voterID = true := (isValidVoterID_iff voterID).2 hlen
  simp [castVote, hv, hmem]

theorem castVote_unknown (s : State) (now voterID candidate : String)
    (hlen : 5 ≤ voterID.length) (hnew : voterID ∉ s.voterRegistry)
    (hcand : candidate ∉ keys s.voteCounts) :
    castVote s now voterID candidate =
      { ret := false
        outcome := VoteOutcome.RejectedUnknownCandidate
        out := "Invalid candidate name."
        state := s } := by
  have hv : isValidVoterID voterID = true := (isValidVoterID_iff voterID).2 hlen
  have hc : isValidCandidate s candidate = false := by
    unfold isValidCandidate
    rw [(mapFind_eq_none_iff _ _).2 hcand]
    rfl
  simp [castVote, hv, hnew, hc]

theorem castVote_accepted (s : State) (now voterID candidate : String)
    (hlen : 5 ≤ voterID.length) (hnew : voterID ∉ s.voterRegistry)
    (hcand : candidate ∈ keys s.voteCounts) :
    castVote s now voterID candidate =
      { ret := true
        outcome := VoteOutcome.Accepted
        out := "Vote for " ++ candidate ++ " registered successfully."
        state :=
          { s with
            voterRegistry := insert voterID s.voterRegistry
            voteCounts := mapUpdate s.voteCounts candidate (fun v => v + 1) } } := by
  have hv : isValidVoterID voterID = true := (isValidVoterID_iff voterID).2 hlen
  have hc : isValidCandidate s candidate = true := by
    unfold isValidCandidate
    exact (mapFind_isSome_iff _ _).2 hcand
  simp [castVote, hv, hnew, hc]

theorem castVote_ret_iff (s : State) (now voterID candidate : String) :
    (castVote s now voterID candidate).ret = true ↔
      5 ≤ voterID.length ∧ voterID ∉ s.voterRegistry ∧ candidate ∈ keys s.voteCounts := by
  by_cases h1 : voterID.length < 5
  · rw [castVote_invalid s now voterID candidate h1]
    simp
    omega
  · have hlen : 5 ≤ voterID.length := by omega
    by_cases h2 : voterID ∈ s.voterRegistry
    · rw [castVote_duplicate s now voterID candidate hlen h2]
      simp [h2]
    · by_cases h3 : candidate ∈ keys s.voteCounts
      · rw [castVote_accepted s now voterID candidate hlen h2 h3]
        simp [hlen, h2, h3]
      · rw [castVote_unknown s now voterID candidate hlen h2 h3]
        simp [h3]

theorem castVote_registry_mono (s : State) (now voterID candidate v : String)
    (hv : v ∈ s.voterRegistry) : v ∈ (castVote s now voterID candidate).state.voterRegistry := by
  by_cases h1 : voterID.length < 5
  · rw [castVote_invalid s now voterID candidate h1]
    exact hv
  · have hlen : 5 ≤ voterID.length := by omega
    by_cases h2 : voterID ∈ s.voterRegistry
    · rw [castVote_duplicate s now voterID candidate hlen h2]
      exact hv
    · by_cases h3 : candidate ∈ keys s.voteCounts
      · rw [castVote_accepted s now voterID candidate hlen h2 h3]
        exact Finset.mem_insert_of_mem hv
      · rw [castVote_unknown s now voterID candidate hlen h2 h3]
        exact hv

theorem addCandidate_registry (s : State) (name : String) :
    (addCandidate s name).state.voterRegistry = s.voterRegistry := by
  unfold addCandidate
  split <;> rfl

theorem addCandidate_fraudLogs (s : State) (name : String) :
    (addCandidate s name).state.fraudLogs = s.fraudLogs := by
  unfold addCandidate
  split <;> rfl

theorem run_registry_mono (ops : List Op) (s : State) (v : String)
    (hnr : ∀ op ∈ ops, Op.isReset op = false) (hv : v ∈ s.voterRegistry) :
    v ∈ (run s ops).voterRegistry := by
  induction ops generalizing s with
  | nil => exact hv
  | cons op ops ih =>
    have hrest : ∀ o ∈ ops, Op.isReset o = false := fun o ho => hnr o (List.mem_cons_of_mem _ ho)
    have hop : Op.isReset op = false := hnr op (List.mem_cons_self _ _)
    apply ih _ hrest
    cases op with
    | add name =>
      show v ∈ (addCandidate s name).state.voterRegistry
      rw [addCandidate_registry]
      exact hv
    | vote now voterID candidate => exact castVote_registry_mono s now voterID candidate v hv
    | reset => simp [Op.isReset] at hop

/-! ## `addCandidate`, and the run of a sequence of calls -/

theorem mapUpdate_of_not_mem (m : List (String × Int)) (k : String) (f : Int → Int)
    (h : k ∉ keys m) : mapUpdate m k f = m ++ [(k, f 0)] := by
  induction m with
  | nil => rfl
  | cons p rest ih =>
    obtain ⟨k', v⟩ := p
    have hk : ¬ k' = k := fun e => h (by simp [keys, e])
    have hrest : k ∉ keys rest := fun hm => h (by
      simp only [keys, List.map_cons, List.mem_cons]
      exact Or.inr hm)
    simp [mapUpdate, hk, ih hrest]

theorem mapUpdate_nonneg (m : List (String × Int)) (k : String) (f : Int → Int)
    (hf : ∀ v, 0 ≤ v → 0 ≤ f v) (hm : ∀ p ∈ m, 0 ≤ p.2) :
    ∀ p ∈ mapUpdate m k f, 0 ≤ p.2 := by
  induction m with
  | nil =>
    intro p hp
    simp only [mapUpdate, List.mem_singleton] at hp
    subst hp
    exact hf 0 (le_refl 0)
  | cons q rest ih =>
    obtain ⟨k', v⟩ := q
    have hv : 0 ≤ v := hm (k', v) (List.mem_cons_self _ _)
    have hrest : ∀ p ∈ rest, 0 ≤ p.2 := fun p hp => hm p (List.mem_cons_of_mem _ hp)
    intro p hp
    by_cases hk : k' = k
    · simp only [mapUpdate, hk, if_true, List.mem_cons] at hp
      rcases hp with hp | hp
      · subst hp
        exact hf v hv
      · exact hrest p hp
    · simp only [mapUpdate, hk, if_false, List.mem_cons] at hp
      rcases hp with hp | hp
      · subst hp
        exact hv
      · exact ih hrest p hp

theorem addCandidate_of_not_mem (s : State) (name : String) (h : name ∉ keys s.voteCounts) :
    addCandidate s name =
      { outcome := AddOutcome.Added
        out := "Candidate " ++ name ++ " added successfully."
        state := { s with voteCounts := s.voteCounts ++ [(name, 0)] } } := by
  have hf : mapFind s.voteCounts name = none := (mapFind_eq_none_iff _ _).2 h
  simp [addCandidate, hf, mapUpdate_of_not_mem _ _ _ h]

theorem addCandidate_of_mem (s : State) (name : String) (h : name ∈ keys s.voteCounts) :
    addCandidate s name =
      { outcome := AddOutcome.AlreadyExists
        out := "Candidate " ++ name ++ " already exists."
        state := s } := by
  have hf : ¬ mapFind s.voteCounts name = none := fun e => (mapFind_eq_none_iff _ _).1 e h
  simp [addCandidate, hf]

theorem addCandidate_sum (s : State) (name : String) :
    ((addCandidate s name).state.voteCounts.map Prod.snd).sum
      = (s.voteCounts.map Prod.snd).sum := by
  by_cases h : name ∈ keys s.voteCounts
  · rw [addCandidate_of_mem s name h]
  · rw [addCandidate_of_not_mem s name h]
    simp

theorem addCandidate_nonneg (s : State) (name : String) (hs : ∀ p ∈ s.voteCounts, 0 ≤ p.2) :
    ∀ p ∈ (addCandidate s name).state.voteCounts, 0 ≤ p.2 := by
  unfold addCandidate
  split
  · exact mapUpdate_nonneg _ _ _ (fun _ _ => le_refl 0) hs
  · exact hs

theorem castVote_sum (s : State) (now voterID candidate : String) :
    ((castVote s now voterID candidate).state.voteCounts.map Prod.snd).sum
      = (s.voteCounts.map Prod.snd).sum
        + (if (castVote s now voterID candidate).ret then 1 else 0) := by
  by_cases h1 : voterID.length < 5
  · rw [castVote_invalid s now voterID candidate h1]
    simp
  · have hlen : 5 ≤ voterID.length := by omega
    by_cases h2 : voterID ∈ s.voterRegistry
    · rw [castVote_duplicate s now voterID candidate hlen h2]
      simp
    · by_cases h3 : candidate ∈ keys s.voteCounts
      · rw [castVote_accepted s now voterID candidate hlen h2 h3]
        obtain ⟨n, _, hsum⟩ :=
          sum_mapUpdate_of_mem s.voteCounts candidate (fun v => v + 1) h3
        simp only [hsum, if_true]
        ring
      · rw [castVote_unknown s now voterID candidate hlen h2 h3]
        simp

theorem castVote_nonneg (s : State) (now voterID candidate : String)
    (hs : ∀ p ∈ s.voteCounts, 0 ≤ p.2) :
    ∀ p ∈ (castVote s now voterID candidate).state.voteCounts, 0 ≤ p.2 := by
  by_cases h1 : voterID.length < 5
  · rw [castVote_invalid s now voterID candidate h1]
    exact hs
  · have hlen : 5 ≤ voterID.length := by omega
    by_cases h2 : voterID ∈ s.voterRegistry
    · rw [castVote_duplicate s now voterID candidate hlen h2]
      exact hs
    · by_cases h3 : candidate ∈ keys s.voteCounts
      · rw [castVote_accepted s now voterID candidate hlen h2 h3]
        exact mapUpdate_nonneg _ _ _ (fun v hv => by omega) hs
      · rw [castVote_unknown s now voterID candidate hlen h2 h3]
        exact hs

theorem run_sum_accepted (ops : List Op) (s : State)
    (hnr : ∀ op ∈ ops, Op.isReset op = false) :
    ((run s ops).voteCounts.map Prod.snd).sum
      = (s.voteCounts.map Prod.snd).sum + (acceptedCount s ops : Int) := by
  induction ops generalizing s with
  | nil => simp [run, acceptedCount]
  | cons op ops ih =>
    have hrest : ∀ o ∈ ops, Op.isReset o = false := fun o ho => hnr o (List.mem_cons_of_mem _ ho)
    have hop : Op.isReset op = false := hnr op (List.mem_cons_self _ _)
    cases op with
    | add name =>
      simp only [run, step, acceptedCount]
      rw [ih _ hrest, addCandidate_sum]
    | vote now voterID candidate =>
      simp only [run, step, acceptedCount]
      rw [ih _ hrest, castVote_sum]
      split <;> push_cast <;> ring
    | reset => simp [Op.isReset] at hop

theorem run_nonneg (ops : List Op) (s : State)
    (hnr : ∀ op ∈ ops, Op.isReset op = false) (hs : ∀ p ∈ s.voteCounts, 0 ≤ p.2) :
    ∀ p ∈ (run s ops).voteCounts, 0 ≤ p.2 := by
  induction ops generalizing s with
  | nil => exact hs
  | cons op ops ih =>
    have hrest : ∀ o ∈ ops, Op.isReset o = false := fun o ho => hnr o (List.mem_cons_of_mem _ ho)
    have hop : Op.isReset op = false := hnr op (List.mem_cons_self _ _)
    cases op with
    | add name => exact ih _ hrest (addCandidate_nonneg s name hs)
    | vote now voterID candidate => exact ih _ hrest (castVote_nonneg s now voterID candidate hs)
    | reset => simp [Op.isReset] at hop

theorem resetSystem_eq_construct (s : State) : resetSystem s = construct := rfl

theorem construct_voteCounts :
    construct.voteCounts = [("Candidate1", 0), ("Candidate2", 0), ("Candidate3", 0)] := by
  decide

theorem construct_voterRegistry : construct.voterRegistry = ∅ := by
  simp [construct, seedDefaults, addCandidate_registry, cleared]

theorem construct_fraudLogs : construct.fraudLogs = [] := by
  simp [construct, seedDefaults, addCandidate_fraudLogs, cleared]

theorem fraud_invariant (ops : List Op) (s : State) (acc : List FraudLog)
    (hacc : s.fraudLogs = acc)
    (hinv : ∀ e ∈ s.fraudLogs, 5 ≤ e.voterID.length ∧ e.voterID ∈ s.voterRegistry ∧
      ∃ c : String, e.attemptDetails = "Attempted duplicate vote for " ++ c) :
    (run s ops).fraudLogs = duplicateRejections s acc ops ∧
    ∀ e ∈ (run s ops).fraudLogs, 5 ≤ e.voterID.length ∧
      e.voterID ∈ (run s ops).voterRegistry ∧
      ∃ c : String, e.attemptDetails = "Attempted duplicate vote for " ++ c := by
  induction ops generalizing s acc with
  | nil => exact ⟨hacc, hinv⟩
  | cons op ops ih =>
    cases op with
    | add name =>
      simp only [run, step, duplicateRejections]
      apply ih
      · rw [addCandidate_fraudLogs]
        exact hacc
      · rw [addCandidate_fraudLogs, addCandidate_registry]
        exact hinv
    | reset =>
      simp only [run, step, duplicateRejections]
      apply ih
      · rw [resetSystem_eq_construct, construct_fraudLogs]
      · rw [resetSystem_eq_construct, construct_fraudLogs]
        intro e he
        simp at he
    | vote now voterID candidate =>
      simp only [run, step, duplicateRejections]
      apply ih
      · by_cases h1 : voterID.length < 5
        · rw [castVote_invalid s now voterID candidate h1]
          simpa using hacc
        · have hlen : 5 ≤ voterID.length := by omega
          by_cases h2 : voterID ∈ s.voterRegistry
          · rw [castVote_duplicate s now voterID candidate hlen h2]
            simp [hacc]
          · by_cases h3 : candidate ∈ keys s.voteCounts
            · rw [castVote_accepted s now voterID candidate hlen h2 h3]
              simpa using hacc
            · rw [castVote_unknown s now voterID candidate hlen h2 h3]
              simpa using hacc
      · by_cases h1 : voterID.length < 5
        · rw [castVote_invalid s now voterID candidate h1]
          exact hinv
        · have hlen : 5 ≤ voterID.length := by omega
          by_cases h2 : voterID ∈ s.voterRegistry
          · rw [castVote_duplicate s now voterID candidate hlen h2]
            intro e he
            simp only [List.mem_append, List.mem_singleton] at he
            rcases he with he | he
            · exact hinv e he
            · subst he
              exact ⟨hlen, h2, candidate, rfl⟩
          · by_cases h3 : candidate ∈ keys s.voteCounts
            · rw [castVote_accepted s now voterID candidate hlen h2 h3]
              intro e he
              obtain ⟨a, b, c⟩ := hinv e he
              exact ⟨a, Finset.mem_insert_of_mem b, c⟩
            · rw [castVote_unknown s now voterID candidate hlen h2 h3]
              exact hinv

theorem castVote_fraudLogs_of_not_duplicate (s : State) (now voterID candidate : String)
    (h : (castVote s now voterID candidate).outcome ≠ VoteOutcome.RejectedDuplicate) :
    (castVote s now voterID candidate).state.fraudLogs = s.fraudLogs := by
  by_cases h1 : voterID.length < 5
  · rw [castVote_invalid s now voterID candidate h1]
  · have hlen : 5 ≤ voterID.length := by omega
    by_cases h2 : voterID ∈ s.voterRegistry
    · rw [castVote_duplicate s now voterID candidate hlen h2] at h
      exact absurd rfl h
    · by_cases h3 : candidate ∈ keys s.voteCounts
      · rw [castVote_accepted s now voterID candidate hlen h2 h3]
      · rw [castVote_unknown s now voterID candidate hlen h2 h3]

/-! ## The report of `displayStats` -/

theorem sortInsert_perm (comp : String × Int → String × Int → Bool) (x : String × Int)
    (l : List (String × Int)) : (sortInsert comp x l).Perm (x :: l) := by
  induction l with
  | nil => exact List.Perm.refl _
  | cons y ys ih =>
    unfold sortInsert
    split
    · exact (List.Perm.cons y ih).trans (List.Perm.swap x y ys)
    · exact List.Perm.refl _

theorem stdSort_perm (comp : String × Int → String × Int → Bool) (l : List (String × Int)) :
    (stdSort comp l).Perm l := by
  induction l with
  | nil => exact List.Perm.refl _
  | cons x xs ih => exact (sortInsert_perm comp x _).trans (List.Perm.cons x ih)

theorem sortInsert_sorted (x : String × Int) (l : List (String × Int))
    (h : l.Pairwise (fun a b => b.2 ≤ a.2)) :
    (sortInsert CompareVotes x l).Pairwise (fun a b => b.2 ≤ a.2) := by
  induction l with
  | nil => simp [sortInsert]
  | cons y ys ih =>
    rw [List.pairwise_cons] at h
    unfold sortInsert
    by_cases hc : CompareVotes y x = true
    · have hyx : x.2 < y.2 := by simpa [CompareVotes] using hc
      rw [if_pos hc, List.pairwise_cons]
      refine ⟨?_, ih h.2⟩
      intro a ha
      have ha2 : a ∈ x :: ys := (sortInsert_perm CompareVotes x ys).subset ha
      rcases List.mem_cons.1 ha2 with e | e
      · rw [e]
        exact le_of_lt hyx
      · exact h.1 a e
    · have hyx : y.2 ≤ x.2 := by simpa [CompareVotes] using hc
      rw [if_neg hc, List.pairwise_cons, List.pairwise_cons]
      refine ⟨?_, h⟩
      intro a ha
      rcases List.mem_cons.1 ha with e | e
      · rw [e]
        exact hyx
      · exact le_trans (h.1 a e) hyx

theorem sortedResults_perm (m : List (String × Int)) : (sortedResults m).Perm m :=
  stdSort_perm CompareVotes m

theorem sortedResults_sorted (m : List (String × Int)) :
    (sortedResults m).Pairwise (fun a b => b.2 ≤ a.2) := by
  unfold sortedResults
  induction m with
  | nil => simp [stdSort]
  | cons x xs ih => exact sortInsert_sorted x _ ih

theorem mapFind_eq_some_iff (m : List (String × Int)) (hnd : (keys m).Nodup) (k : String)
    (v : Int) : mapFind m k = some v ↔ (k, v) ∈ m := by
  induction m with
  | nil => simp [mapFind]
  | cons p rest ih =>
    obtain ⟨k', w⟩ := p
    have hnd2 : k' ∉ keys rest ∧ (keys rest).Nodup := by
      simpa [keys] using hnd
    by_cases hk : k' = k
    · subst hk
      have hno : (k', v) ∉ rest := fun hm => hnd2.1 (List.mem_map_of_mem Prod.fst hm)
      simp only [mapFind, if_true, List.mem_cons, Option.some.injEq, Prod.mk.injEq, true_and]
      constructor
      · intro e
        exact Or.inl e.symm
      · rintro (e | e)
        · exact e.symm
        · exact absurd e hno
    · have hk2 : ¬ k = k' := fun e => hk e.symm
      simp only [mapFind, hk, if_false, List.mem_cons, Prod.mk.injEq, hk2, false_and, false_or]
      exact ih hnd2.2

theorem mapFind_perm (m m2 : List (String × Int)) (hp : m2.Perm m) (hnd : (keys m).Nodup)
    (k : String) : mapFind m2 k = mapFind m k := by
  have hnd2 : (keys m2).Nodup := ((hp.map Prod.fst).nodup_iff).2 hnd
  apply Option.ext
  intro v
  rw [Option.mem_def, Option.mem_def, mapFind_eq_some_iff m2 hnd2, mapFind_eq_some_iff m hnd]
  exact hp.mem_iff

theorem displayStats_of_pos (s : State) (h : 0 < totalVotes s) :
    displayStats s =
      { totalVotes := totalVotes s
        report :=
          Report.Results
            ((sortedResults s.voteCounts).map (resultRow (totalVotes s)))
            (tally s.voteCounts).leadingCandidate
            (tally s.voteCounts).maxVotes
            (percentage (tally s.voteCounts).maxVotes (totalVotes s))
        state := s } := by
  have h2 : (tally s.voteCounts).totalVotes > 0 := h
  simp [displayStats, totalVotes, h2]

theorem displayStats_of_not_pos (s : State) (h : ¬ 0 < totalVotes s) :
    displayStats s =
      { totalVotes := totalVotes s
        report := Report.NoVotesCast
        state := s } := by
  have h2 : ¬ (tally s.voteCounts).totalVotes > 0 := h
  simp [displayStats, totalVotes, h2]

theorem map_resultRow_votes (total : Int) (l : List (String × Int)) :
    (l.map (resultRow total)).map (fun r => (r.candidate, r.votes)) = l := by
  induction l with
  | nil => rfl
  | cons p rest ih => simp [resultRow, ih]

theorem tally_append_singleton (l : List (String × Int)) (p : String × Int) :
    tally (l ++ [p]) = tallyStep (tally l) p := by
  simp [tally, List.foldl_append]

theorem tally_leading (m : List (String × Int)) :
    0 ≤ (tally m).maxVotes ∧
    (∀ p ∈ m, p.2 ≤ (tally m).maxVotes) ∧
    (((tally m).maxVotes = 0 ∧ (tally m).leadingCandidate = "") ∨
      ∃ before after : List (String × Int),
        m = before ++ ((tally m).leadingCandidate, (tally m).maxVotes) :: after ∧
        ∀ p ∈ before, p.2 < (tally m).maxVotes) := by
  induction m using List.reverseRecOn with
  | nil =>
    refine ⟨le_refl 0, ?_, Or.inl ⟨rfl, rfl⟩⟩
    intro p hp
    simp at hp
  | append_singleton l p ih =>
    obtain ⟨h0, hle, hcase⟩ := ih
    rw [tally_append_singleton]
    by_cases hgt : p.2 > (tally l).maxVotes
    · have hstep : tallyStep (tally l) p =
          { totalVotes := (tally l).totalVotes + p.2, leadingCandidate := p.1,
            maxVotes := p.2 } := by
        simp [tallyStep, hgt]
      rw [hstep]
      refine ⟨le_trans h0 (le_of_lt hgt), ?_, Or.inr ⟨l, [], rfl, ?_⟩⟩
      · intro q hq
        rcases List.mem_append.1 hq with hq | hq
        · exact le_trans (hle q hq) (le_of_lt hgt)
        · rw [List.mem_singleton.1 hq]
      · intro q hq
        exact lt_of_le_of_lt (hle q hq) hgt
    · have hstep : tallyStep (tally l) p =
          { tally l with totalVotes := (tally l).totalVotes + p.2 } := by
        simp [tallyStep, hgt]
      rw [hstep]
      refine ⟨h0, ?_, ?_⟩
      · intro q hq
        rcases List.mem_append.1 hq with hq | hq
        · exact hle q hq
        · rw [List.mem_singleton.1 hq]
          exact not_lt.1 hgt
      · rcases hcase with hz | ⟨before, after, hl, hb⟩
        · exact Or.inl hz
        · refine Or.inr ⟨before, after ++ [p], ?_, hb⟩
          show l ++ [p] = before ++ ((tally l).leadingCandidate, (tally l).maxVotes)
            :: (after ++ [p])
          conv_lhs => rw [hl]
          simp

theorem exists_pos_of_sum_pos (l : List Int) (h : 0 < l.sum) : ∃ x ∈ l, 0 < x := by
  induction l with
  | nil => simp at h
  | cons a t ih =>
    by_cases ha : 0 < a
    · exact ⟨a, List.mem_cons_self _ _, ha⟩
    · have ht : 0 < t.sum := by
        rw [List.sum_cons] at h
        omega
      obtain ⟨x, hx, hpos⟩ := ih ht
      exact ⟨x, List.mem_cons_of_mem _ hx, hpos⟩

theorem tally_leading_of_pos (m : List (String × Int)) (h : 0 < (tally m).totalVotes) :
    0 < (tally m).maxVotes ∧
    (∀ p ∈ m, p.2 ≤ (tally m).maxVotes) ∧
    ∃ before after : List (String × Int),
      m = before ++ ((tally m).leadingCandidate, (tally m).maxVotes) :: after ∧
      ∀ p ∈ before, p.2 < (tally m).maxVotes := by
  obtain ⟨_, hle, hcase⟩ := tally_leading m
  rw [tally_totalVotes] at h
  obtain ⟨x, hx, hpos⟩ := exists_pos_of_sum_pos _ h
  obtain ⟨p, hp, rfl⟩ := List.mem_map.1 hx
  have hmax : 0 < (tally m).maxVotes := lt_of_lt_of_le hpos (hle p hp)
  refine ⟨hmax, hle, ?_⟩
  rcases hcase with hz | hd
  · omega
  · exact hd

theorem head_of_sorted_max (l : List (String × Int)) (x : String × Int)
    (hs : l.Pairwise (fun a b => b.2 ≤ a.2)) (hx : x ∈ l) (hmax : ∀ p ∈ l, p.2 ≤ x.2) :
    l.head?.map Prod.snd = some x.2 := by
  cases l with
  | nil => simp at hx
  | cons a t =>
    rw [List.pairwise_cons] at hs
    have h1 : a.2 ≤ x.2 := hmax a (List.mem_cons_self _ _)
    have h2 : x.2 ≤ a.2 := by
      rcases List.mem_cons.1 hx with e | e
      · rw [e]
      · exact hs.1 x e
    simp only [List.head?_cons, Option.map_some', Option.some.injEq]
    omega

theorem percentage_eq (count total : Int) :
    percentage count total = ((count : ℚ) * 100) / (total : ℚ) := by
  unfold percentage
  rw [div_mul_eq_mul_div]

theorem showFixed2_75 : showFixed2 75 = "75.00" := by
  have h : ⌊(75 : ℚ) * 100⌋ = 7500 := by
    rw [Int.floor_eq_iff]
    norm_num
  unfold showFixed2
  simp only [h]
  norm_num
  decide

theorem tally_three_one (m : List (String × Int)) (hnd : (keys m).Nodup)
    (h1 : ("Candidate1", 3) ∈ m) (h2 : ("Candidate2", 1) ∈ m)
    (h0 : ∀ p ∈ m, p.1 ≠ "Candidate1" → p.1 ≠ "Candidate2" → p.2 = 0) :
    tally m = { totalVotes := 4, leadingCandidate := "Candidate1", maxVotes := 3 } := by
  have hinj : ∀ p ∈ m, ∀ q ∈ m, p.1 = q.1 → p = q :=
    fun p hp q hq e => List.inj_on_of_nodup_map hnd hp hq e
  have hmnd : m.Nodup := List.Nodup.of_map Prod.fst hnd
  have hne : (("Candidate2", 1) : String × Int) ≠ ("Candidate1", 3) := by decide
  obtain ⟨l1, l2, hm⟩ := List.append_of_mem h1
  have hb : (("Candidate2", 1) : String × Int) ∈ l1 ++ l2 := by
    rw [hm] at h2
    simp only [List.mem_append, List.mem_cons] at h2 ⊢
    rcases h2 with e | e | e
    · exact Or.inl e
    · exact absurd e hne
    · exact Or.inr e
  obtain ⟨l3, l4, hm2⟩ := List.append_of_mem hb
  have hperm : m.Perm (("Candidate1", 3) :: ("Candidate2", 1) :: (l3 ++ l4)) := by
    rw [hm]
    refine List.perm_middle.trans (List.Perm.cons _ ?_)
    rw [hm2]
    exact List.perm_middle
  have hnd3 := (hperm.nodup_iff).1 hmnd
  rw [List.nodup_cons, List.nodup_cons] at hnd3
  have hrest : ∀ p ∈ l3 ++ l4, p.2 = 0 := by
    intro p hp
    have hpm : p ∈ m := hperm.mem_iff.2 (List.mem_cons_of_mem _ (List.mem_cons_of_mem _ hp))
    apply h0 p hpm
    · intro e
      have e2 := hinj p hpm _ h1 e
      rw [e2] at hp
      exact hnd3.1 (List.mem_cons_of_mem _ hp)
    · intro e
      have e2 := hinj p hpm _ h2 e
      rw [e2] at hp
      exact hnd3.2.1 hp
  have hsum : (m.map Prod.snd).sum = 4 := by
    rw [(hperm.map Prod.snd).sum_eq]
    have hz : ((l3 ++ l4).map Prod.snd).sum = 0 := by
      apply List.sum_eq_zero
      intro x hx
      obtain ⟨p, hp, rfl⟩ := List.mem_map.1 hx
      exact hrest p hp
    simp only [List.map_cons, List.sum_cons, hz]
    norm_num
  have hall : ∀ p ∈ m, p.2 ≤ 3 := by
    intro p hp
    by_cases e1 : p.1 = "Candidate1"
    · rw [hinj p hp _ h1 e1]
    · by_cases e2 : p.1 = "Candidate2"
      · rw [hinj p hp _ h2 e2]
        decide
      · rw [h0 p hp e1 e2]
        decide
  have htot : (tally m).totalVotes = 4 := by rw [tally_totalVotes, hsum]
  obtain ⟨_, hle, before, after, hdec, _⟩ := tally_leading_of_pos m (by rw [htot]; decide)
  have hmem : ((tally m).leadingCandidate, (tally m).maxVotes) ∈ m := by
    have hin : ((tally m).leadingCandidate, (tally m).maxVotes)
        ∈ before ++ ((tally m).leadingCandidate, (tally m).maxVotes) :: after := by
      simp
    rw [← hdec] at hin
    exact hin
  have hmax : (tally m).maxVotes = 3 :=
    le_antisymm (hall _ hmem) (hle _ h1)
  have hlead : (tally m).leadingCandidate = "Candidate1" := by
    by_contra e1
    by_cases e2 : (tally m).leadingCandidate = "Candidate2"
    · have e := hinj _ hmem _ h2 e2
      have e3 : (tally m).maxVotes = 1 := congrArg Prod.snd e
      omega
    · have e3 : (tally m).maxVotes = 0 := h0 _ hmem e1 e2
      omega
  cases ht : tally m with
  | mk t l mx =>
    rw [ht] at htot hmax hlead
    simp only at htot hmax hlead
    rw [htot, hmax, hlead]

/-! ## What a single call keeps -/

theorem mapFind_mapUpdate_mono (m : List (String × Int)) (c : String) (f : Int → Int)
    (hf : ∀ v, v ≤ f v) (k : String) (v : Int) (h : mapFind m k = some v) :
    ∃ w, mapFind (mapUpdate m c f) k = some w ∧ v ≤ w := by
  by_cases hk : k = c
  · subst hk
    refine ⟨f v, ?_, hf v⟩
    rw [mapFind_mapUpdate_self, h]
    rfl
  · exact ⟨v, by rw [mapFind_mapUpdate_of_ne _ _ _ _ hk, h], le_refl v⟩

theorem keys_mapUpdate_of_mem (m : List (String × Int)) (c : String) (f : Int → Int)
    (h : c ∈ keys m) : keys (mapUpdate m c f) = keys m := by
  induction m with
  | nil => simp [keys] at h
  | cons p rest ih =>
    obtain ⟨k', v⟩ := p
    by_cases hk : k' = c
    · simp [mapUpdate, keys, hk]
    · have hc : c ∈ keys rest := by
        have : ¬ c = k' := fun e => hk e.symm
        simpa [keys, this] using h
      have ih2 := ih hc
      simp only [keys] at ih2
      simp [mapUpdate, keys, hk, ih2]

theorem addCandidate_keeps (s : State) (name : String) :
    (∀ (k : String) (v : Int), mapFind s.voteCounts k = some v →
      ∃ w, mapFind (addCandidate s name).state.voteCounts k = some w ∧ v ≤ w) ∧
    (∀ k ∈ keys s.voteCounts, k ∈ keys (addCandidate s name).state.voteCounts) ∧
    s.voterRegistry ⊆ (addCandidate s name).state.voterRegistry ∧
    s.fraudLogs <+: (addCandidate s name).state.fraudLogs := by
  by_cases h : name ∈ keys s.voteCounts
  · rw [addCandidate_of_mem s name h]
    exact ⟨fun k v hk => ⟨v, hk, le_refl v⟩, fun k hk => hk, Finset.Subset.refl _,
      List.prefix_refl _⟩
  · rw [addCandidate_of_not_mem s name h]
    refine ⟨?_, ?_, Finset.Subset.refl _, List.prefix_refl _⟩
    · intro k v hk
      have hkm : k ∈ keys s.voteCounts := by
        rw [← mapFind_isSome_iff, hk]
        rfl
      have hne : k ≠ name := fun e => h (e ▸ hkm)
      refine ⟨v, ?_, le_refl v⟩
      show mapFind (s.voteCounts ++ [(name, 0)]) k = some v
      rw [← mapUpdate_of_not_mem s.voteCounts name (fun _ => 0) h,
        mapFind_mapUpdate_of_ne _ _ _ _ hne, hk]
    · intro k hk
      show k ∈ keys (s.voteCounts ++ [(name, 0)])
      simp only [keys, List.map_append, List.mem_append]
      exact Or.inl hk

theorem castVote_keeps (s : State) (now voterID candidate : String) :
    (∀ (k : String) (v : Int), mapFind s.voteCounts k = some v →
      ∃ w, mapFind (castVote s now voterID candidate).state.voteCounts k = some w ∧ v ≤ w) ∧
    (∀ k ∈ keys s.voteCounts, k ∈ keys (castVote s now voterID candidate).state.voteCounts) ∧
    s.voterRegistry ⊆ (castVote s now voterID candidate).state.voterRegistry ∧
    s.fraudLogs <+: (castVote s now voterID candidate).state.fraudLogs := by
  by_cases h1 : voterID.length < 5
  · rw [castVote_invalid s now voterID candidate h1]
    exact ⟨fun k v hk => ⟨v, hk, le_refl v⟩, fun k hk => hk, Finset.Subset.refl _,
      List.prefix_refl _⟩
  · have hlen : 5 ≤ voterID.length := by omega
    by_cases h2 : voterID ∈ s.voterRegistry
    · rw [castVote_duplicate s now voterID candidate hlen h2]
      exact ⟨fun k v hk => ⟨v, hk, le_refl v⟩, fun k hk => hk, Finset.Subset.refl _,
        List.prefix_append _ _⟩
    · by_cases h3 : candidate ∈ keys s.voteCounts
      · rw [castVote_accepted s now voterID candidate hlen h2 h3]
        refine ⟨?_, ?_, Finset.subset_insert _ _, List.prefix_refl _⟩
        · intro k v hk
          exact mapFind_mapUpdate_mono _ _ _ (fun v => by omega) k v hk
        · intro k hk
          show k ∈ keys (mapUpdate s.voteCounts candidate (fun v => v + 1))
          rw [keys_mapUpdate_of_mem _ _ _ h3]
          exact hk
      · rw [castVote_unknown s now voterID candidate hlen h2 h3]
        exact ⟨fun k v hk => ⟨v, hk, le_refl v⟩, fun k hk => hk, Finset.Subset.refl _,
          List.prefix_refl _⟩

theorem construct_nonneg : ∀ p ∈ construct.voteCounts, 0 ≤ p.2 := by
  rw [construct_voteCounts]
  decide

theorem run_nonneg_all (ops : List Op) (s : State) (hs : ∀ p ∈ s.voteCounts, 0 ≤ p.2) :
    ∀ p ∈ (run s ops).voteCounts, 0 ≤ p.2 := by
  induction ops generalizing s with
  | nil => exact hs
  | cons op ops ih =>
    cases op with
    | add name => exact ih _ (addCandidate_nonneg s name hs)
    | vote now voterID candidate => exact ih _ (castVote_nonneg s now voterID candidate hs)
    | reset =>
      apply ih
      show ∀ p ∈ (resetSystem s).voteCounts, 0 ≤ p.2
      rw [resetSystem_eq_construct]
      exact construct_nonneg

theorem totalVotes_nonneg (s : State) (hs : ∀ p ∈ s.voteCounts, 0 ≤ p.2) :
    0 ≤ totalVotes s := by
  rw [totalVotes, tally_totalVotes]
  apply List.sum_nonneg
  intro x hx
  obtain ⟨p, hp, rfl⟩ := List.mem_map.1 hx
  exact hs p hp

theorem displayStats_report_iff (s : State) :
    (displayStats s).report = Report.NoVotesCast ↔ ¬ 0 < totalVotes s := by
  by_cases h : 0 < totalVotes s
  · rw [displayStats_of_pos s h]
    simp [h]
  · rw [displayStats_of_not_pos s h]
    simp [h]

theorem mapUpdate_comm (m : List (String × Int)) (c1 c2 : String) (f : Int → Int)
    (h1 : c1 ∈ keys m) (h2 : c2 ∈ keys m) :
    mapUpdate (mapUpdate m c1 f) c2 f = mapUpdate (mapUpdate m c2 f) c1 f := by
  induction m with
  | nil => simp [keys] at h1
  | cons p rest ih =>
    obtain ⟨k', v⟩ := p
    by_cases e1 : k' = c1
    · by_cases e2 : k' = c2
      · rw [← e1, ← e2]
      · subst e1
        simp [mapUpdate, e2]
    · by_cases e2 : k' = c2
      · subst e2
        simp [mapUpdate, e1]
      · have n1 : ¬ c1 = k' := fun e => e1 e.symm
        have n2 : ¬ c2 = k' := fun e => e2 e.symm
        have r1 : c1 ∈ keys rest := by simpa [keys, n1] using h1
        have r2 : c2 ∈ keys rest := by simpa [keys, n2] using h2
        simp [mapUpdate, e1, e2, ih r1 r2]

theorem step_invariant (s : State) (op : Op)
    (hsum : (s.voteCounts.map Prod.snd).sum = (s.voterRegistry.card : Int))
    (hlen : ∀ v ∈ s.voterRegistry, 5 ≤ v.length) :
    ((step s op).voteCounts.map Prod.snd).sum = ((step s op).voterRegistry.card : Int) ∧
    ∀ v ∈ (step s op).voterRegistry, 5 ≤ v.length := by
  cases op with
  | add name =>
    show ((addCandidate s name).state.voteCounts.map Prod.snd).sum
        = ((addCandidate s name).state.voterRegistry.card : Int) ∧
      ∀ v ∈ (addCandidate s name).state.voterRegistry, 5 ≤ v.length
    rw [addCandidate_sum, addCandidate_registry]
    exact ⟨hsum, hlen⟩
  | reset =>
    show ((resetSystem s).voteCounts.map Prod.snd).sum
        = ((resetSystem s).voterRegistry.card : Int) ∧
      ∀ v ∈ (resetSystem s).voterRegistry, 5 ≤ v.length
    rw [resetSystem_eq_construct, construct_voteCounts, construct_voterRegistry]
    refine ⟨by decide, ?_⟩
    intro v hv
    simp at hv
  | vote now voterID candidate =>
    show ((castVote s now voterID candidate).state.voteCounts.map Prod.snd).sum
        = ((castVote s now voterID candidate).state.voterRegistry.card : Int) ∧
      ∀ v ∈ (castVote s now voterID candidate).state.voterRegistry, 5 ≤ v.length
    rw [castVote_sum]
    by_cases h1 : voterID.length < 5
    · rw [castVote_invalid s now voterID candidate h1]
      simpa using ⟨hsum, hlen⟩
    · have h5 : 5 ≤ voterID.length := by omega
      by_cases h2 : voterID ∈ s.voterRegistry
      · rw [castVote_duplicate s now voterID candidate h5 h2]
        simpa using ⟨hsum, hlen⟩
      · by_cases h3 : candidate ∈ keys s.voteCounts
        · rw [castVote_accepted s now voterID candidate h5 h2 h3]
          refine ⟨?_, ?_⟩
          · simp only [if_true, Finset.card_insert_of_not_mem h2]
            push_cast
            rw [hsum]
          · intro v hv
            rcases Finset.mem_insert.1 hv with e | e
            · rw [e]
              exact h5
            · exact hlen v e
        · rw [castVote_unknown s now voterID candidate h5 h2 h3]
          simpa using ⟨hsum, hlen⟩

theorem run_invariant (ops : List Op) (s : State)
    (hsum : (s.voteCounts.map Prod.snd).sum = (s.voterRegistry.card : Int))
    (hlen : ∀ v ∈ s.voterRegistry, 5 ≤ v.length) :
    ((run s ops).voteCounts.map Prod.snd).sum = ((run s ops).voterRegistry.card : Int) ∧
    ∀ v ∈ (run s ops).voterRegistry, 5 ≤ v.length := by
  induction ops generalizing s with
  | nil => exact ⟨hsum, hlen⟩
  | cons op ops ih =>
    obtain ⟨h1, h2⟩ := step_invariant s op hsum hlen
    exact ih _ h1 h2

/-! ## Percentages and bars -/

theorem truncToInt_of_nonneg (x : ℚ) (h : 0 ≤ x) : truncToInt x = ⌊x⌋ := by
  unfold truncToInt
  rw [Rat.floor_def, Int.tdiv_eq_ediv (Rat.num_nonneg.2 h) (Int.ofNat_nonneg _)]

theorem percentage_bounds (count total : Int) (h0 : 0 ≤ count) (hle : count ≤ total)
    (hpos : 0 < total) : 0 ≤ percentage count total ∧ percentage count total ≤ 100 := by
  have hT : (0 : ℚ) < (total : ℚ) := by exact_mod_cast hpos
  have hc : (0 : ℚ) ≤ (count : ℚ) := by exact_mod_cast h0
  have hct : (count : ℚ) ≤ (total : ℚ) := by exact_mod_cast hle
  have h1 : (count : ℚ) / (total : ℚ) ≤ 1 := (div_le_one hT).2 hct
  have h2 : (0 : ℚ) ≤ (count : ℚ) / (total : ℚ) := div_nonneg hc (le_of_lt hT)
  unfold percentage
  constructor
  · positivity
  · linarith

theorem barLength_bounds (pct : ℚ) (h0 : 0 ≤ pct) (h100 : pct ≤ 100) :
    barLength pct = ⌊pct / 5⌋ ∧ 0 ≤ barLength pct ∧ barLength pct ≤ 20 ∧
      ((barLength pct : Int) : ℚ) ≤ pct / 5 := by
  have h5 : (0 : ℚ) ≤ pct / 5 := by positivity
  have hb : barLength pct = ⌊pct / 5⌋ := truncToInt_of_nonneg _ h5
  have hfl : ((⌊pct / 5⌋ : Int) : ℚ) ≤ pct / 5 := Int.floor_le _
  refine ⟨hb, ?_, ?_, ?_⟩
  · rw [hb]
    exact Int.floor_nonneg.2 h5
  · rw [hb]
    have : ((⌊pct / 5⌋ : Int) : ℚ) ≤ 20 := by linarith
    exact_mod_cast this
  · rw [hb]
    exact hfl

theorem sum_percentage (l : List (String × Int)) (total : Int) :
    (l.map (fun p => percentage p.2 total)).sum = percentage (l.map Prod.snd).sum total := by
  induction l with
  | nil => simp [percentage]
  | cons p rest ih =>
    simp only [List.map_cons, List.sum_cons, ih]
    unfold percentage
    push_cast
    ring

theorem percentage_self (total : Int) (hpos : 0 < total) : percentage total total = 100 := by
  have hT : (total : ℚ) ≠ 0 := by
    have : (0 : ℚ) < (total : ℚ) := by exact_mod_cast hpos
    exact ne_of_gt this
  unfold percentage
  rw [div_self hT]
  norm_num

theorem sum_barLength_le (l : List (String × Int)) (total : Int)
    (h : ∀ p ∈ l, 0 ≤ percentage p.2 total ∧ percentage p.2 total ≤ 100) :
    (((l.map (fun p => barLength (percentage p.2 total))).sum : Int) : ℚ)
      ≤ (l.map (fun p => percentage p.2 total)).sum / 5 := by
  induction l with
  | nil => simp
  | cons p rest ih =>
    have hp := h p (List.mem_cons_self _ _)
    have hr := ih (fun q hq => h q (List.mem_cons_of_mem _ hq))
    have hb := (barLength_bounds _ hp.1 hp.2).2.2.2
    simp only [List.map_cons, List.sum_cons]
    rw [Int.cast_add, add_div]
    exact add_le_add hb hr

/-! ## The claims -/

/-- C1: for every state, every voter ID of length at least 5 that is not in the voter registry
and every candidate that is a key of the ledger, `castVote` returns `true` (Accepted), the
total of all counts grows by exactly 1 and the count of that candidate grows by exactly 1. -/
theorem castVote_accepts_valid (s : State) (now voterID candidate : String)
    (hlen : 5 ≤ voterID.length) (hnew : voterID ∉ s.voterRegistry)
    (hcand : candidate ∈ keys s.voteCounts) :
    (castVote s now voterID candidate).ret = true ∧
    (castVote s now voterID candidate).outcome = VoteOutcome.Accepted ∧
    totalVotes (castVote s now voterID candidate).state = totalVotes s + 1 ∧
    ((castVote s now voterID candidate).state.voteCounts.map Prod.snd).sum
      = (s.voteCounts.map Prod.snd).sum + 1 ∧
    ∃ n : Int, mapFind s.voteCounts candidate = some n ∧
      mapFind (castVote s now voterID candidate).state.voteCounts candidate = some (n + 1) := by
  obtain ⟨n, hn, hsum⟩ := sum_mapUpdate_of_mem s.voteCounts candidate (fun v => v + 1) hcand
  rw [castVote_accepted s now voterID candidate hlen hnew hcand]
  refine ⟨rfl, rfl, ?_, ?_, n, hn, ?_⟩
  · simp only [totalVotes, tally_totalVotes, hsum]
    ring
  · simp only [hsum]
    ring
  · simp [mapFind_mapUpdate_self, hn]

/-- Witness of C1 on the freshly constructed system. -/
theorem castVote_accepts_valid_witness :
    (castVote construct "t0" "voter001" "Candidate1").ret = true ∧
    totalVotes (castVote construct "t0" "voter001" "Candidate1").state
      = totalVotes construct + 1 :=
  have h := castVote_accepts_valid construct "t0" "voter001" "Candidate1"
    (by decide) (by decide) (by decide)
  ⟨h.1, h.2.2.1⟩

/-- C2: once `castVote` accepted voter `V`, after any further sequence of `addCandidate` and
`castVote` calls (no reset) a call `castVote(V, c2)` for any candidate name returns `false` as
a duplicate, changes no candidate count and makes the fraud log exactly one entry longer. -/
theorem duplicate_after_accept (s : State) (now V c : String)
    (hacc : (castVote s now V c).ret = true) (ops : List Op)
    (hnr : ∀ op ∈ ops, Op.isReset op = false) (now2 c2 : String) :
    (castVote (run (castVote s now V c).state ops) now2 V c2).ret = false ∧
    (castVote (run (castVote s now V c).state ops) now2 V c2).outcome
      = VoteOutcome.RejectedDuplicate ∧
    (castVote (run (castVote s now V c).state ops) now2 V c2).state.voteCounts
      = (run (castVote s now V c).state ops).voteCounts ∧
    (castVote (run (castVote s now V c).state ops) now2 V c2).state.fraudLogs.length
      = (run (castVote s now V c).state ops).fraudLogs.length + 1 := by
  obtain ⟨hlen, hnew, hcand⟩ := (castVote_ret_iff s now V c).1 hacc
  have hin : V ∈ (castVote s now V c).state.voterRegistry := by
    rw [castVote_accepted s now V c hlen hnew hcand]
    exact Finset.mem_insert_self _ _
  have hlater := run_registry_mono ops _ V hnr hin
  rw [castVote_duplicate _ now2 V c2 hlen hlater]
  simp

/-- Witness of C2: voter001 votes, a candidate is added and another voter votes, then
voter001 tries again. -/
theorem duplicate_after_accept_witness :
    (castVote (run (castVote construct "t0" "voter001" "Candidate1").state
        [Op.add "Dana", Op.vote "t1" "voter002" "Dana"]) "t2" "voter001" "Dana").outcome
      = VoteOutcome.RejectedDuplicate :=
  (duplicate_after_accept construct "t0" "voter001" "Candidate1" (by decide)
    [Op.add "Dana", Op.vote "t1" "voter002" "Dana"] (by decide) "t2" "Dana").2.1

/-- C3: the duplicate check precedes the candidate check: for a voter ID of length at least 5
that is already in the registry and any candidate name, key of the ledger or not, `castVote`
is rejected as a duplicate, the fraud log gains exactly one entry at its end (that voter ID,
the current clock value, "Attempted duplicate vote for " followed by the name) and the ledger
and the registry are unchanged. -/
theorem duplicate_check_first (s : State) (now voterID c : String)
    (hlen : 5 ≤ voterID.length) (hmem : voterID ∈ s.voterRegistry) :
    (castVote s now voterID c).ret = false ∧
    (castVote s now voterID c).outcome = VoteOutcome.RejectedDuplicate ∧
    (castVote s now voterID c).outcome ≠ VoteOutcome.RejectedUnknownCandidate ∧
    (castVote s now voterID c).state.fraudLogs = s.fraudLogs ++
      [{ voterID := voterID
         timestamp := now
         attemptDetails := "Attempted duplicate vote for " ++ c }] ∧
    (castVote s now voterID c).state.voteCounts = s.voteCounts ∧
    (castVote s now voterID c).state.voterRegistry = s.voterRegistry := by
  rw [castVote_duplicate s now voterID c hlen hmem]
  simp

/-- Witness of C3: a registered voter names a candidate that is not in the ledger. -/
theorem duplicate_check_first_witness :
    (castVote (castVote construct "t0" "voter001" "Candidate1").state
        "t1" "voter001" "Nobody").outcome = VoteOutcome.RejectedDuplicate ∧
    "Nobody" ∉ keys (castVote construct "t0" "voter001" "Candidate1").state.voteCounts :=
  ⟨(duplicate_check_first (castVote construct "t0" "voter001" "Candidate1").state
      "t1" "voter001" "Nobody" (by decide) (by decide)).2.1, by decide⟩

/-- C4: for a voter ID that is empty or shorter than 5 characters and any candidate name,
`castVote` returns `false` with the invalid-voter-ID rejection and the whole state (ledger,
registry, fraud log) is unchanged, so no fraud entry is appended. -/
theorem short_voterID_rejected (s : State) (now voterID c : String)
    (hshort : voterID.length = 0 ∨ voterID.length < 5) :
    (castVote s now voterID c).ret = false ∧
    (castVote s now voterID c).outcome = VoteOutcome.RejectedInvalidVoterID ∧
    (castVote s now voterID c).state = s ∧
    (castVote s now voterID c).state.fraudLogs = s.fraudLogs := by
  have h : voterID.length < 5 := by omega
  rw [castVote_invalid s now voterID c h]
  simp

/-- Witness of C4: the two-character ID "ab" with an existing candidate. -/
theorem short_voterID_rejected_witness :
    (castVote construct "t0" "ab" "Candidate1").outcome = VoteOutcome.RejectedInvalidVoterID ∧
    (castVote construct "t0" "ab" "Candidate1").state = construct :=
  have h := short_voterID_rejected construct "t0" "ab" "Candidate1" (Or.inr (by decide))
  ⟨h.2.1, h.2.2.1⟩

/-- C5: for a voter ID of length at least 5 that is not in the registry and a candidate name
that is not a key of the ledger, `castVote` returns `false` with the unknown-candidate
rejection and the state is unchanged: no fraud entry, the voter is not registered (a later vote
of the same voter for an existing candidate is Accepted) and the name is not inserted. -/
theorem unknown_candidate_rejected (s : State) (now voterID c : String)
    (hlen : 5 ≤ voterID.length) (hnew : voterID ∉ s.voterRegistry)
    (hcand : c ∉ keys s.voteCounts) :
    (castVote s now voterID c).ret = false ∧
    (castVote s now voterID c).outcome = VoteOutcome.RejectedUnknownCandidate ∧
    (castVote s now voterID c).state = s ∧
    (castVote s now voterID c).state.fraudLogs = s.fraudLogs ∧
    voterID ∉ (castVote s now voterID c).state.voterRegistry ∧
    c ∉ keys (castVote s now voterID c).state.voteCounts ∧
    ∀ now2 c2 : String, c2 ∈ keys s.voteCounts →
      (castVote (castVote s now voterID c).state now2 voterID c2).ret = true ∧
      (castVote (castVote s now voterID c).state now2 voterID c2).outcome
        = VoteOutcome.Accepted := by
  rw [castVote_unknown s now voterID c hlen hnew hcand]
  refine ⟨rfl, rfl, rfl, rfl, hnew, hcand, ?_⟩
  intro now2 c2 hc2
  rw [castVote_accepted s now2 voterID c2 hlen hnew hc2]
  exact ⟨rfl, rfl⟩

/-- Witness of C5: voter002 names "Candidate9" on the freshly constructed system. -/
theorem unknown_candidate_rejected_witness :
    (castVote construct "t0" "voter002" "Candidate9").outcome
      = VoteOutcome.RejectedUnknownCandidate ∧
    (castVote construct "t0" "voter002" "Candidate9").state = construct :=
  have h := unknown_candidate_rejected construct "t0" "voter002" "Candidate9"
    (by decide) (by decide) (by decide)
  ⟨h.2.1, h.2.2.1⟩

/-- C6: `castVote` is a total function and every call takes exactly one of the four outcomes,
decided in order: invalid voter ID iff the length is below 5; otherwise duplicate iff the
voter ID is in the registry; otherwise unknown candidate iff the name is not a ledger key;
otherwise Accepted.  It returns `true` iff it is Accepted, iff the length is at least 5, the
voter ID is not in the registry and the candidate is a ledger key. -/
theorem castVote_outcome_order (s : State) (now voterID c : String) :
    ((castVote s now voterID c).outcome = VoteOutcome.RejectedInvalidVoterID ↔
      voterID.length < 5) ∧
    ((castVote s now voterID c).outcome = VoteOutcome.RejectedDuplicate ↔
      5 ≤ voterID.length ∧ voterID ∈ s.voterRegistry) ∧
    ((castVote s now voterID c).outcome = VoteOutcome.RejectedUnknownCandidate ↔
      5 ≤ voterID.length ∧ voterID ∉ s.voterRegistry ∧ c ∉ keys s.voteCounts) ∧
    ((castVote s now voterID c).outcome = VoteOutcome.Accepted ↔
      5 ≤ voterID.length ∧ voterID ∉ s.voterRegistry ∧ c ∈ keys s.voteCounts) ∧
    ((castVote s now voterID c).ret = true ↔
      (castVote s now voterID c).outcome = VoteOutcome.Accepted) ∧
    ((castVote s now voterID c).ret = true ↔
      5 ≤ voterID.length ∧ voterID ∉ s.voterRegistry ∧ c ∈ keys s.voteCounts) := by
  by_cases h1 : voterID.length < 5
  · rw [castVote_invalid s now voterID c h1]
    simp
    omega
  · have hlen : 5 ≤ voterID.length := by omega
    by_cases h2 : voterID ∈ s.voterRegistry
    · rw [castVote_duplicate s now voterID c hlen h2]
      simp [h1, h2, hlen]
    · by_cases h3 : c ∈ keys s.voteCounts
      · rw [castVote_accepted s now voterID c hlen h2 h3]
        simp [h1, h2, h3, hlen]
      · rw [castVote_unknown s now voterID c hlen h2 h3]
        simp [h1, h2, h3, hlen]

/-- C7: after any finite sequence of `addCandidate` and `castVote` calls on a freshly
constructed or freshly reset system, the sum of all candidate counts equals the number of
`castVote` calls of the sequence that returned `true`, and every count is at least 0. -/
theorem counts_sum_eq_accepted (ops : List Op) (hnr : ∀ op ∈ ops, Op.isReset op = false)
    (s0 : State) :
    (((run construct ops).voteCounts.map Prod.snd).sum = (acceptedCount construct ops : Int) ∧
      totalVotes (run construct ops) = (acceptedCount construct ops : Int) ∧
      ∀ p ∈ (run construct ops).voteCounts, 0 ≤ p.2) ∧
    (((run (resetSystem s0) ops).voteCounts.map Prod.snd).sum
        = (acceptedCount (resetSystem s0) ops : Int) ∧
      totalVotes (run (resetSystem s0) ops) = (acceptedCount (resetSystem s0) ops : Int) ∧
      ∀ p ∈ (run (resetSystem s0) ops).voteCounts, 0 ≤ p.2) := by
  have hsum : ((run construct ops).voteCounts.map Prod.snd).sum
      = (acceptedCount construct ops : Int) := by
    rw [run_sum_accepted ops construct hnr, construct_voteCounts]
    simp
  have hnn : ∀ p ∈ (run construct ops).voteCounts, 0 ≤ p.2 := by
    apply run_nonneg ops construct hnr
    rw [construct_voteCounts]
    decide
  have htot : totalVotes (run construct ops) = (acceptedCount construct ops : Int) := by
    rw [totalVotes, tally_totalVotes, hsum]
  rw [resetSystem_eq_construct]
  exact ⟨⟨hsum, htot, hnn⟩, ⟨hsum, htot, hnn⟩⟩

/-- Witness of C7: four calls on the freshly constructed system, two of them Accepted. -/
theorem counts_sum_eq_accepted_witness :
    totalVotes (run construct
        [Op.vote "t0" "voter001" "Candidate1", Op.vote "t1" "voter001" "Candidate2",
         Op.add "Dana", Op.vote "t2" "voter002" "Dana"])
      = (acceptedCount construct
        [Op.vote "t0" "voter001" "Candidate1", Op.vote "t1" "voter001" "Candidate2",
         Op.add "Dana", Op.vote "t2" "voter002" "Dana"] : Int) ∧
    acceptedCount construct
        [Op.vote "t0" "voter001" "Candidate1", Op.vote "t1" "voter001" "Candidate2",
         Op.add "Dana", Op.vote "t2" "voter002" "Dana"] = 2 :=
  ⟨(counts_sum_eq_accepted
      [Op.vote "t0" "voter001" "Candidate1", Op.vote "t1" "voter001" "Candidate2",
       Op.add "Dana", Op.vote "t2" "voter002" "Dana"] (by decide) construct).1.2.1,
    by decide⟩

/-- C8: in every state reachable from construction by `addCandidate`, `castVote` and
`resetSystem` calls, the fraud log is exactly the list of entries of the `castVote` calls
rejected as duplicates since construction or the last reset, in order, so its length is their
number; every entry has a voter ID of length at least 5 that is in the voter registry and
details "Attempted duplicate vote for " followed by a candidate name; and a `castVote` call
with any other outcome (invalid ID, unknown candidate, Accepted) leaves the fraud log as it
was. -/
theorem fraudLogs_only_duplicates (ops : List Op) :
    (run construct ops).fraudLogs = duplicateRejections construct [] ops ∧
    (run construct ops).fraudLogs.length = (duplicateRejections construct [] ops).length ∧
    (∀ e ∈ (run construct ops).fraudLogs, 5 ≤ e.voterID.length ∧
      e.voterID ∈ (run construct ops).voterRegistry ∧
      ∃ c : String, e.attemptDetails = "Attempted duplicate vote for " ++ c) ∧
    (∀ (s : State) (now voterID c : String),
      (castVote s now voterID c).outcome ≠ VoteOutcome.RejectedDuplicate →
      (castVote s now voterID c).state.fraudLogs = s.fraudLogs) := by
  have h := fraud_invariant ops construct [] construct_fraudLogs (by
    rw [construct_fraudLogs]
    intro e he
    simp at he)
  exact ⟨h.1, by rw [h.1], h.2, castVote_fraudLogs_of_not_duplicate⟩

/-- C9: `addCandidate` is idempotent.  On a state where the name is absent the first call
reports Added and a second call reports AlreadyExists and changes nothing; for every state
add(add(s, n), n) = add(s, n); and on a state where the name is already a key the call reports
AlreadyExists and leaves the whole state, the count of the name included, unchanged. -/
theorem addCandidate_idempotent (s : State) (n : String) :
    (n ∉ keys s.voteCounts →
      (addCandidate s n).outcome = AddOutcome.Added ∧
      (addCandidate (addCandidate s n).state n).outcome = AddOutcome.AlreadyExists) ∧
    (addCandidate (addCandidate s n).state n).state = (addCandidate s n).state ∧
    (n ∈ keys s.voteCounts →
      (addCandidate s n).outcome = AddOutcome.AlreadyExists ∧
      (addCandidate s n).state = s ∧
      mapFind (addCandidate s n).state.voteCounts n = mapFind s.voteCounts n) := by
  have hafter : n ∉ keys s.voteCounts →
      n ∈ keys ({ s with voteCounts := s.voteCounts ++ [(n, 0)] } : State).voteCounts := by
    intro _
    simp [keys]
  refine ⟨?_, ?_, ?_⟩
  · intro h
    rw [addCandidate_of_not_mem s n h]
    refine ⟨rfl, ?_⟩
    rw [addCandidate_of_mem _ n (hafter h)]
  · by_cases h : n ∈ keys s.voteCounts
    · rw [addCandidate_of_mem s n h, addCandidate_of_mem s n h]
    · rw [addCandidate_of_not_mem s n h, addCandidate_of_mem _ n (hafter h)]
  · intro h
    rw [addCandidate_of_mem s n h]
    exact ⟨rfl, rfl, rfl⟩

/-- Witness of C9: "Dana" is added twice to the fresh system, and "Candidate1" is added again
to a state where it holds one vote. -/
theorem addCandidate_idempotent_witness :
    ((addCandidate construct "Dana").outcome = AddOutcome.Added ∧
      (addCandidate (addCandidate construct "Dana").state "Dana").outcome
        = AddOutcome.AlreadyExists) ∧
    mapFind (addCandidate (castVote construct "t0" "voter001" "Candidate1").state
        "Candidate1").state.voteCounts "Candidate1" = some 1 :=
  ⟨(addCandidate_idempotent construct "Dana").1 (by decide),
    ((addCandidate_idempotent (castVote construct "t0" "voter001" "Candidate1").state
      "Candidate1").2.2 (by decide)).2.2.trans (by decide)⟩

/-- C10: for a name that is not a key of the ledger (the empty string and blank names
included), `addCandidate` reports Added; afterwards the name is a key with count 0, the count
of every other name is unchanged, the keys are exactly the old keys plus the name, and the
voter registry, the fraud log and the total of the counts are unchanged. -/
theorem addCandidate_new (s : State) (n : String) (h : n ∉ keys s.voteCounts) :
    (addCandidate s n).outcome = AddOutcome.Added ∧
    n ∈ keys (addCandidate s n).state.voteCounts ∧
    mapFind (addCandidate s n).state.voteCounts n = some 0 ∧
    (∀ k : String, k ≠ n →
      mapFind (addCandidate s n).state.voteCounts k = mapFind s.voteCounts k) ∧
    (∀ k : String, k ∈ keys (addCandidate s n).state.voteCounts ↔
      k ∈ keys s.voteCounts ∨ k = n) ∧
    (addCandidate s n).state.voterRegistry = s.voterRegistry ∧
    (addCandidate s n).state.fraudLogs = s.fraudLogs ∧
    totalVotes (addCandidate s n).state = totalVotes s := by
  have hf : mapFind s.voteCounts n = none := (mapFind_eq_none_iff _ _).2 h
  have hst : (addCandidate s n).state.voteCounts = mapUpdate s.voteCounts n (fun _ => 0) := by
    simp [addCandidate, hf]
  have hkeys : ∀ k : String, k ∈ keys (addCandidate s n).state.voteCounts ↔
      k ∈ keys s.voteCounts ∨ k = n := by
    intro k
    rw [addCandidate_of_not_mem s n h]
    simp [keys]
  refine ⟨?_, (hkeys n).2 (Or.inr rfl), ?_, ?_, hkeys, addCandidate_registry s n,
    addCandidate_fraudLogs s n, ?_⟩
  · rw [addCandidate_of_not_mem s n h]
  · rw [hst, mapFind_mapUpdate_self]
  · intro k hk
    rw [hst, mapFind_mapUpdate_of_ne _ _ _ _ hk]
  · rw [totalVotes, totalVotes, tally_totalVotes, tally_totalVotes, addCandidate_sum]

/-- Witness of C10: the empty name is added to the freshly constructed system. -/
theorem addCandidate_new_witness :
    (addCandidate construct "").outcome = AddOutcome.Added ∧
    mapFind (addCandidate construct "").state.voteCounts "" = some 0 :=
  have h := addCandidate_new construct "" (by decide)
  ⟨h.1, h.2.2.1⟩

/-- C11: whatever a state holds, `resetSystem` yields the state whose ledger has exactly the
keys "Candidate1", "Candidate2", "Candidate3", each with count 0, whose voter registry is empty
and whose fraud log is empty; it is the state the constructor produces, and a voter whose vote
was accepted before the reset is Accepted again after it. -/
theorem resetSystem_restores_defaults (s : State) :
    resetSystem s =
      { voteCounts := [("Candidate1", 0), ("Candidate2", 0), ("Candidate3", 0)]
        voterRegistry := ∅
        fraudLogs := [] } ∧
    (∀ k : String, k ∈ keys (resetSystem s).voteCounts ↔
      k = "Candidate1" ∨ k = "Candidate2" ∨ k = "Candidate3") ∧
    (∀ k : String, k ∈ keys (resetSystem s).voteCounts →
      mapFind (resetSystem s).voteCounts k = some 0) ∧
    resetSystem s = construct ∧
    (∀ (s0 : State) (now voterID c : String), (castVote s0 now voterID c).ret = true →
      ∀ (ops : List Op) (now2 c2 : String),
        c2 = "Candidate1" ∨ c2 = "Candidate2" ∨ c2 = "Candidate3" →
        voterID ∈ (castVote s0 now voterID c).state.voterRegistry ∧
        (castVote (resetSystem (run (castVote s0 now voterID c).state ops))
          now2 voterID c2).ret = true ∧
        (castVote (resetSystem (run (castVote s0 now voterID c).state ops))
          now2 voterID c2).outcome = VoteOutcome.Accepted) := by
  have hkeys : ∀ k : String, k ∈ keys construct.voteCounts ↔
      k = "Candidate1" ∨ k = "Candidate2" ∨ k = "Candidate3" := by
    intro k
    rw [construct_voteCounts]
    simp [keys]
  refine ⟨?_, ?_, ?_, rfl, ?_⟩
  · rw [resetSystem_eq_construct]
    decide
  · rw [resetSystem_eq_construct]
    exact hkeys
  · rw [resetSystem_eq_construct]
    intro k hk
    rcases (hkeys k).1 hk with h | h | h <;> subst h <;> decide
  · intro s0 now voterID c hacc ops now2 c2 hc2
    obtain ⟨hlen, hnew, hcand⟩ := (castVote_ret_iff s0 now voterID c).1 hacc
    have hin : voterID ∈ (castVote s0 now voterID c).state.voterRegistry := by
      rw [castVote_accepted s0 now voterID c hlen hnew hcand]
      exact Finset.mem_insert_self _ _
    have hfresh : voterID ∉ construct.voterRegistry := by
      rw [construct_voterRegistry]
      exact Finset.not_mem_empty _
    rw [resetSystem_eq_construct,
      castVote_accepted construct now2 voterID c2 hlen hfresh ((hkeys c2).2 hc2)]
    exact ⟨hin, rfl, rfl⟩

/-- Witness of C11: voter001 votes, a further candidate gets a vote, the system is reset and
voter001 votes again. -/
theorem resetSystem_restores_defaults_witness :
    (castVote (resetSystem (run (castVote construct "t0" "voter001" "Candidate1").state
        [Op.add "Dana", Op.vote "t1" "voter002" "Dana"])) "t2" "voter001" "Candidate2").ret
      = true :=
  ((resetSystem_restores_defaults construct).2.2.2.2 construct "t0" "voter001" "Candidate1"
    (by decide) [Op.add "Dana", Op.vote "t1" "voter002" "Dana"] "t2" "Candidate2"
    (by decide)).2.1

/-- C12: on a freshly constructed system the calls castVote("voter001","Candidate1"),
castVote("voter001","Candidate2"), castVote("ab","Candidate1"),
castVote("voter002","Candidate9") yield Accepted, RejectedDuplicate, RejectedInvalidVoterID and
RejectedUnknownCandidate; the fraud log has length 1 after the second call; at the end the
total is 1, the count of Candidate1 is 1 and the fraud log has length 1. -/
theorem scenario_four_votes (t1 t2 t3 t4 : String) :
    (castVote construct t1 "voter001" "Candidate1").outcome = VoteOutcome.Accepted ∧
    (castVote construct t1 "voter001" "Candidate1").ret = true ∧
    (castVote (run construct [Op.vote t1 "voter001" "Candidate1"])
      t2 "voter001" "Candidate2").outcome = VoteOutcome.RejectedDuplicate ∧
    (run construct [Op.vote t1 "voter001" "Candidate1",
      Op.vote t2 "voter001" "Candidate2"]).fraudLogs.length = 1 ∧
    (castVote (run construct [Op.vote t1 "voter001" "Candidate1",
      Op.vote t2 "voter001" "Candidate2"]) t3 "ab" "Candidate1").outcome
        = VoteOutcome.RejectedInvalidVoterID ∧
    (castVote (run construct [Op.vote t1 "voter001" "Candidate1",
      Op.vote t2 "voter001" "Candidate2", Op.vote t3 "ab" "Candidate1"])
      t4 "voter002" "Candidate9").outcome = VoteOutcome.RejectedUnknownCandidate ∧
    totalVotes (run construct [Op.vote t1 "voter001" "Candidate1",
      Op.vote t2 "voter001" "Candidate2", Op.vote t3 "ab" "Candidate1",
      Op.vote t4 "voter002" "Candidate9"]) = 1 ∧
    mapFind (run construct [Op.vote t1 "voter001" "Candidate1",
      Op.vote t2 "voter001" "Candidate2", Op.vote t3 "ab" "Candidate1",
      Op.vote t4 "voter002" "Candidate9"]).voteCounts "Candidate1" = some 1 ∧
    (run construct [Op.vote t1 "voter001" "Candidate1",
      Op.vote t2 "voter001" "Candidate2", Op.vote t3 "ab" "Candidate1",
      Op.vote t4 "voter002" "Candidate9"]).fraudLogs.length = 1 := by
  have h1 : (castVote construct t1 "voter001" "Candidate1").state =
      { voteCounts := [("Candidate1", 1), ("Candidate2", 0), ("Candidate3", 0)]
        voterRegistry := {"voter001"}
        fraudLogs := [] } := by
    rw [castVote_accepted construct t1 "voter001" "Candidate1"
      (by decide) (by decide) (by decide)]
    decide
  have h2 : (castVote
      { voteCounts := [("Candidate1", 1), ("Candidate2", 0), ("Candidate3", 0)]
        voterRegistry := {"voter001"}
        fraudLogs := [] } t2 "voter001" "Candidate2") = _ :=
    castVote_duplicate _ t2 "voter001" "Candidate2" (by decide) (by decide)
  have h3 : ∀ l : List FraudLog, (castVote
      { voteCounts := [("Candidate1", 1), ("Candidate2", 0), ("Candidate3", 0)]
        voterRegistry := {"voter001"}
        fraudLogs := l } t3 "ab" "Candidate1") = _ :=
    fun l => castVote_invalid _ t3 "ab" "Candidate1" (by decide)
  have h4 : ∀ l : List FraudLog, (castVote
      { voteCounts := [("Candidate1", 1), ("Candidate2", 0), ("Candidate3", 0)]
        voterRegistry := {"voter001"}
        fraudLogs := l } t4 "voter002" "Candidate9") = _ :=
    fun l => castVote_unknown _ t4 "voter002" "Candidate9" (by decide)
      (by show "voter002" ∉ ({"voter001"} : Finset String); decide)
      (by
        show "Candidate9" ∉ keys [("Candidate1", 1), ("Candidate2", 0), ("Candidate3", 0)]
        decide)
  simp only [run, step]
  rw [h1, h2, h3, h4]
  refine ⟨?_, ?_, rfl, rfl, rfl, rfl, ?_, ?_, rfl⟩
  · rw [castVote_accepted construct t1 "voter001" "Candidate1"
      (by decide) (by decide) (by decide)]
  · rw [castVote_accepted construct t1 "voter001" "Candidate1"
      (by decide) (by decide) (by decide)]
  · show (tally [("Candidate1", 1), ("Candidate2", 0), ("Candidate3", 0)]).totalVotes = 1
    decide
  · show mapFind [("Candidate1", 1), ("Candidate2", 0), ("Candidate3", 0)] "Candidate1" = some 1
    decide

/-- C13: for every ledger, the rows built by `displayStats` (`sortedResults` after the sort)
are a permutation of the (candidate, count) pairs of the ledger, so with distinct ledger keys
each candidate appears exactly once with its own count, and the counts along the sequence never
increase; when the total is positive these are the rows of the printed table. -/
theorem sortedResults_perm_descending (m : List (String × Int)) :
    (sortedResults m).Perm m ∧
    ((sortedResults m).map Prod.snd).Sorted (fun a b => a ≥ b) ∧
    ((keys m).Nodup →
      (keys (sortedResults m)).Nodup ∧
      (∀ k : String, k ∈ keys (sortedResults m) ↔ k ∈ keys m) ∧
      ∀ k : String, mapFind (sortedResults m) k = mapFind m k) ∧
    (∀ s : State, s.voteCounts = m → 0 < totalVotes s →
      ∃ (rows : List ResultRow) (lead : String) (maxVotes : Int) (pct : ℚ),
        (displayStats s).report = Report.Results rows lead maxVotes pct ∧
        rows.map (fun r => (r.candidate, r.votes)) = sortedResults m) := by
  have hp := sortedResults_perm m
  refine ⟨hp, ?_, ?_, ?_⟩
  · unfold List.Sorted
    rw [List.pairwise_map]
    exact sortedResults_sorted m
  · intro hnd
    refine ⟨((hp.map Prod.fst).nodup_iff).2 hnd, ?_, fun k => mapFind_perm m _ hp hnd k⟩
    intro k
    exact (hp.map Prod.fst).mem_iff
  · intro s hs hpos
    rw [displayStats_of_pos s hpos]
    refine ⟨_, _, _, _, rfl, ?_⟩
    rw [map_resultRow_votes, hs]

/-- Witness of C13: a ledger of four candidates with a tie. -/
theorem sortedResults_perm_descending_witness :
    sortedResults [("Candidate1", 1), ("Candidate2", 0), ("Candidate3", 3), ("Dana", 1)]
      = [("Candidate3", 3), ("Candidate1", 1), ("Dana", 1), ("Candidate2", 0)] ∧
    ∀ k : String,
      mapFind (sortedResults
        [("Candidate1", 1), ("Candidate2", 0), ("Candidate3", 3), ("Dana", 1)]) k
      = mapFind [("Candidate1", 1), ("Candidate2", 0), ("Candidate3", 3), ("Dana", 1)] k :=
  ⟨by decide,
    ((sortedResults_perm_descending
      [("Candidate1", 1), ("Candidate2", 0), ("Candidate3", 3), ("Dana", 1)]).2.2.1
      (by decide)).2.2⟩

/-- C14: for every ledger whose total is positive, the leading candidate computed by
`displayStats` is a key of the ledger, its count `maxVotes` is at least the count of every
candidate and equals the count of the first row of the sorted results, and it is the first
candidate in the traversal order of the ledger that attains this maximum: every candidate
before it has a smaller count. -/
theorem leading_candidate_first_max (s : State) (h : 0 < totalVotes s) :
    ∃ (rows : List ResultRow) (lead : String) (maxVotes : Int) (pct : ℚ),
      (displayStats s).report = Report.Results rows lead maxVotes pct ∧
      lead ∈ keys s.voteCounts ∧
      (lead, maxVotes) ∈ s.voteCounts ∧
      (∀ p ∈ s.voteCounts, p.2 ≤ maxVotes) ∧
      rows.head?.map (fun r => r.votes) = some maxVotes ∧
      (∃ before after : List (String × Int),
        s.voteCounts = before ++ (lead, maxVotes) :: after ∧
        (∀ p ∈ before, p.2 < maxVotes) ∧ ∀ p ∈ after, p.2 ≤ maxVotes) ∧
      ((keys s.voteCounts).Nodup → mapFind s.voteCounts lead = some maxVotes) := by
  obtain ⟨_, hle, before, after, hdec, hbefore⟩ := tally_leading_of_pos s.voteCounts h
  have hmem : ((tally s.voteCounts).leadingCandidate, (tally s.voteCounts).maxVotes)
      ∈ s.voteCounts := by
    have hin : ((tally s.voteCounts).leadingCandidate, (tally s.voteCounts).maxVotes)
        ∈ before ++ ((tally s.voteCounts).leadingCandidate, (tally s.voteCounts).maxVotes)
          :: after := by
      simp
    rw [← hdec] at hin
    exact hin
  have hp := sortedResults_perm s.voteCounts
  refine ⟨_, _, _, _, congrArg StatsResult.report (displayStats_of_pos s h), ?_, hmem, hle,
    ?_, ⟨before, after, hdec, hbefore, ?_⟩, ?_⟩
  · exact List.mem_map_of_mem Prod.fst hmem
  · have hh := head_of_sorted_max (sortedResults s.voteCounts) _
      (sortedResults_sorted s.voteCounts) (hp.mem_iff.2 hmem)
      (fun p hq => hle p (hp.mem_iff.1 hq))
    rw [List.head?_map, Option.map_map]
    exact hh
  · intro p hq
    apply hle p
    have hin : p ∈ before ++ ((tally s.voteCounts).leadingCandidate,
        (tally s.voteCounts).maxVotes) :: after := by
      simp [hq]
    rw [← hdec] at hin
    exact hin
  · intro hnd
    exact (mapFind_eq_some_iff _ hnd _ _).2 hmem

/-- Witness of C14: two candidates tie at the maximum; the one met first leads. -/
theorem leading_candidate_first_max_witness :
    0 < totalVotes
      { voteCounts := [("Candidate1", 2), ("Candidate2", 3), ("Candidate3", 3)]
        voterRegistry := ∅
        fraudLogs := [] } ∧
    (tally [("Candidate1", 2), ("Candidate2", 3), ("Candidate3", 3)]).leadingCandidate
      = "Candidate2" ∧
    ∃ (rows : List ResultRow) (lead : String) (maxVotes : Int) (pct : ℚ),
      (displayStats
        { voteCounts := [("Candidate1", 2), ("Candidate2", 3), ("Candidate3", 3)]
          voterRegistry := ∅
          fraudLogs := [] }).report = Report.Results rows lead maxVotes pct ∧
      rows.head?.map (fun r => r.votes) = some maxVotes :=
  ⟨by decide, by decide,
    (leading_candidate_first_max
      { voteCounts := [("Candidate1", 2), ("Candidate2", 3), ("Candidate3", 3)]
        voterRegistry := ∅
        fraudLogs := [] } (by decide)).imp fun _ hr =>
      hr.imp fun _ hl => hl.imp fun _ hm => hm.imp fun _ hq => ⟨hq.1, hq.2.2.2.2.1⟩⟩

/-- C15: with ledger counts Candidate1 = 3 and Candidate2 = 1 and every other candidate at 0,
the total is 4, the leading candidate is Candidate1 with `maxVotes` 3, and its percentage
count / total * 100 is exactly 75, printed with two decimals as 75.00; and for every count and
every total above 0, percentage(count, total) = count * 100 / total over the rationals. -/
theorem percentage_three_of_four (s : State) (hnd : (keys s.voteCounts).Nodup)
    (h1 : mapFind s.voteCounts "Candidate1" = some 3)
    (h2 : mapFind s.voteCounts "Candidate2" = some 1)
    (h0 : ∀ k : String, k ≠ "Candidate1" → k ≠ "Candidate2" → k ∈ keys s.voteCounts →
      mapFind s.voteCounts k = some 0) :
    totalVotes s = 4 ∧
    (displayStats s).totalVotes = 4 ∧
    (∃ rows : List ResultRow,
      (displayStats s).report = Report.Results rows "Candidate1" 3 75 ∧
      { candidate := "Candidate1", votes := 3, percent := 75, bar := 15 } ∈ rows) ∧
    percentage 3 4 = 75 ∧
    showFixed2 (percentage 3 4) = "75.00" ∧
    ∀ count total : Int, 0 < total →
      percentage count total = ((count : ℚ) * 100) / (total : ℚ) := by
  have m1 := (mapFind_eq_some_iff _ hnd _ _).1 h1
  have m2 := (mapFind_eq_some_iff _ hnd _ _).1 h2
  have m0 : ∀ p ∈ s.voteCounts, p.1 ≠ "Candidate1" → p.1 ≠ "Candidate2" → p.2 = 0 := by
    intro p hp e1 e2
    have hk := h0 p.1 e1 e2 (List.mem_map_of_mem Prod.fst hp)
    have hp0 := (mapFind_eq_some_iff _ hnd _ _).1 hk
    exact congrArg Prod.snd (List.inj_on_of_nodup_map hnd hp hp0 rfl)
  have ht := tally_three_one s.voteCounts hnd m1 m2 m0
  have htot : totalVotes s = 4 := by rw [totalVotes, ht]
  have hpct : percentage 3 4 = 75 := by
    unfold percentage
    norm_num
  have hbar : barLength 75 = 15 := by
    have e : (75 : ℚ) / 5 = 15 := by norm_num
    unfold barLength truncToInt
    rw [e]
    rfl
  have hds := displayStats_of_pos s (by rw [htot]; decide)
  rw [ht, htot, hpct] at hds
  refine ⟨htot, by rw [hds], ⟨_, by rw [hds], ?_⟩, hpct, ?_, fun c t _ => percentage_eq c t⟩
  · have hrow := List.mem_map_of_mem (resultRow 4) ((sortedResults_perm s.voteCounts).mem_iff.2 m1)
    simpa [resultRow, hpct, hbar] using hrow
  · rw [hpct]
    exact showFixed2_75

/-- Witness of C15: the ledger of the three default candidates with counts 3, 1 and 0. -/
theorem percentage_three_of_four_witness :
    totalVotes
      { voteCounts := [("Candidate1", 3), ("Candidate2", 1), ("Candidate3", 0)]
        voterRegistry := ∅
        fraudLogs := [] } = 4 ∧
    ∃ rows : List ResultRow,
      (displayStats
        { voteCounts := [("Candidate1", 3), ("Candidate2", 1), ("Candidate3", 0)]
          voterRegistry := ∅
          fraudLogs := [] }).report = Report.Results rows "Candidate1" 3 75 ∧
      { candidate := "Candidate1", votes := 3, percent := 75, bar := 15 } ∈ rows :=
  have h := percentage_three_of_four
    { voteCounts := [("Candidate1", 3), ("Candidate2", 1), ("Candidate3", 0)]
      voterRegistry := ∅
      fraudLogs := [] } (by decide) (by decide) (by decide)
    (by
      intro k e1 e2 hk
      have hk3 : k = "Candidate3" := by
        simp only [keys, List.map_cons, List.map_nil, List.mem_cons, List.mem_singleton,
          List.not_mem_nil, or_false] at hk
        rcases hk with e | e | e
        · exact absurd e e1
        · exact absurd e e2
        · exact e
      subst hk3
      decide)
  ⟨h.1, h.2.2.1⟩

/-- C16: a single `addCandidate` or `castVote` call, with any arguments and any outcome,
removes nothing: every key of the ledger is still a key with a count at least its old count,
every voter ID of the registry is still in it, and the old fraud log is a prefix of the new
one. -/
theorem single_call_keeps_data (s : State) (op : Op) (h : Op.isReset op = false) :
    (∀ (k : String) (v : Int), mapFind s.voteCounts k = some v →
      ∃ w, mapFind (step s op).voteCounts k = some w ∧ v ≤ w) ∧
    (∀ k ∈ keys s.voteCounts, k ∈ keys (step s op).voteCounts) ∧
    s.voterRegistry ⊆ (step s op).voterRegistry ∧
    s.fraudLogs <+: (step s op).fraudLogs := by
  cases op with
  | add name => exact addCandidate_keeps s name
  | vote now voterID candidate => exact castVote_keeps s now voterID candidate
  | reset => simp [Op.isReset] at h

/-- Witness of C16: a duplicate attempt on a state with one vote and one registered voter. -/
theorem single_call_keeps_data_witness :
    (castVote construct "t0" "voter001" "Candidate1").state.fraudLogs <+:
      (step (castVote construct "t0" "voter001" "Candidate1").state
        (Op.vote "t1" "voter001" "Candidate2")).fraudLogs :=
  (single_call_keeps_data (castVote construct "t0" "voter001" "Candidate1").state
    (Op.vote "t1" "voter001" "Candidate2") (by decide)).2.2.2

/-- C17: `displayStats` takes the branch with the percentages, the only one that divides by
the total, iff the sum of all counts of the ledger is above 0, and reports NoVotesCast
otherwise, so the divisor is never 0; the total it prints and divides by is that sum.  With
counts that are not negative, as in every reachable state, the report is NoVotesCast exactly
when the sum of all counts is 0.  The report of a freshly constructed or reset system, and of
a system on which no `castVote` was Accepted since, is NoVotesCast, and `displayStats` leaves
the ledger, the voter registry and the fraud log unchanged. -/
theorem displayStats_noVotes_iff (s : State) :
    ((∃ (rows : List ResultRow) (lead : String) (maxVotes : Int) (pct : ℚ),
        (displayStats s).report = Report.Results rows lead maxVotes pct) ↔
      0 < (s.voteCounts.map Prod.snd).sum) ∧
    ((displayStats s).report = Report.NoVotesCast ↔ ¬ 0 < (s.voteCounts.map Prod.snd).sum) ∧
    (displayStats s).totalVotes = (s.voteCounts.map Prod.snd).sum ∧
    ((displayStats s).report ≠ Report.NoVotesCast → (displayStats s).totalVotes ≠ 0) ∧
    ((∀ p ∈ s.voteCounts, 0 ≤ p.2) →
      ((displayStats s).report = Report.NoVotesCast ↔ (s.voteCounts.map Prod.snd).sum = 0)) ∧
    (∀ ops : List Op, (displayStats (run construct ops)).report = Report.NoVotesCast ↔
      ((run construct ops).voteCounts.map Prod.snd).sum = 0) ∧
    (displayStats construct).report = Report.NoVotesCast ∧
    (displayStats (resetSystem s)).report = Report.NoVotesCast ∧
    (∀ ops : List Op, (∀ op ∈ ops, Op.isReset op = false) → acceptedCount construct ops = 0 →
      (displayStats (run construct ops)).report = Report.NoVotesCast) ∧
    (displayStats s).state = s := by
  have hsumEq : ∀ t : State, totalVotes t = (t.voteCounts.map Prod.snd).sum := by
    intro t
    rw [totalVotes, tally_totalVotes]
  have hrep : ∀ t : State, (displayStats t).report = Report.NoVotesCast ↔
      ¬ 0 < (t.voteCounts.map Prod.snd).sum := by
    intro t
    rw [← hsumEq t]
    exact displayStats_report_iff t
  have htotal : (displayStats s).totalVotes = (s.voteCounts.map Prod.snd).sum := by
    rw [← hsumEq s]
    by_cases h : 0 < totalVotes s
    · rw [displayStats_of_pos s h]
    · rw [displayStats_of_not_pos s h]
  have hzero : ∀ t : State, (∀ p ∈ t.voteCounts, 0 ≤ p.2) →
      ((displayStats t).report = Report.NoVotesCast ↔ (t.voteCounts.map Prod.snd).sum = 0) := by
    intro t ht
    rw [hrep t]
    have := totalVotes_nonneg t ht
    rw [hsumEq t] at this
    omega
  have hcsum : (construct.voteCounts.map Prod.snd).sum = 0 := by
    rw [construct_voteCounts]
    decide
  have hcons : (displayStats construct).report = Report.NoVotesCast :=
    (hzero construct construct_nonneg).2 hcsum
  refine ⟨?_, hrep s, htotal, ?_, hzero s, ?_, hcons, ?_, ?_, ?_⟩
  · rw [← hsumEq s]
    by_cases h : 0 < totalVotes s
    · rw [displayStats_of_pos s h]
      simp [h]
    · rw [displayStats_of_not_pos s h]
      simp [h]
  · intro hne
    rw [htotal]
    have hpos : 0 < (s.voteCounts.map Prod.snd).sum := by
      by_contra hn
      exact hne ((hrep s).2 hn)
    omega
  · intro ops
    exact hzero _ (run_nonneg_all ops construct construct_nonneg)
  · rw [resetSystem_eq_construct]
    exact hcons
  · intro ops hnr hacc
    apply (hzero _ (run_nonneg_all ops construct construct_nonneg)).2
    rw [run_sum_accepted ops construct hnr, hacc, hcsum]
    rfl
  · by_cases h : 0 < totalVotes s
    · rw [displayStats_of_pos s h]
    · rw [displayStats_of_not_pos s h]

/-- Witness of C17: the ledger with counts 3, 1 and 0 has sum 4, so the report is the table;
the freshly constructed ledger has sum 0, so the report is NoVotesCast. -/
theorem displayStats_noVotes_iff_witness :
    (∃ (rows : List ResultRow) (lead : String) (maxVotes : Int) (pct : ℚ),
      (displayStats
        { voteCounts := [("Candidate1", 3), ("Candidate2", 1), ("Candidate3", 0)]
          voterRegistry := ∅
          fraudLogs := [] }).report = Report.Results rows lead maxVotes pct) ∧
    (displayStats
      { voteCounts := [("Candidate1", 3), ("Candidate2", 1), ("Candidate3", 0)]
        voterRegistry := ∅
        fraudLogs := [] }).totalVotes = 4 ∧
    (displayStats
      { voteCounts := [("Candidate1", 0), ("Candidate2", 0), ("Candidate3", 0)]
        voterRegistry := ∅
        fraudLogs := [] }).report = Report.NoVotesCast :=
  ⟨(displayStats_noVotes_iff
      { voteCounts := [("Candidate1", 3), ("Candidate2", 1), ("Candidate3", 0)]
        voterRegistry := ∅
        fraudLogs := [] }).1.2 (by decide),
    (displayStats_noVotes_iff
      { voteCounts := [("Candidate1", 3), ("Candidate2", 1), ("Candidate3", 0)]
        voterRegistry := ∅
        fraudLogs := [] }).2.2.1.trans (by decide),
    (displayStats_noVotes_iff
      { voteCounts := [("Candidate1", 0), ("Candidate2", 0), ("Candidate3", 0)]
        voterRegistry := ∅
        fraudLogs := [] }).2.1.2 (by decide)⟩

/-- C18: frame of an Accepted vote: when `castVote(voterID, c)` returns `true`, the keys of
the ledger are unchanged, the count of every candidate other than `c` is unchanged, the fraud
log is unchanged and the registry is the old registry plus `voterID`.  No part of the new
state records the choice: the registry and fraud log do not depend on `c`, the ledger does not
depend on `voterID`, and two voters who swap their choices leave the same state. -/
theorem accepted_vote_frame (s : State) (now voterID c : String)
    (h : (castVote s now voterID c).ret = true) :
    keys (castVote s now voterID c).state.voteCounts = keys s.voteCounts ∧
    (∀ k : String, k ≠ c →
      mapFind (castVote s now voterID c).state.voteCounts k = mapFind s.voteCounts k) ∧
    (castVote s now voterID c).state.fraudLogs = s.fraudLogs ∧
    (castVote s now voterID c).state.voterRegistry = insert voterID s.voterRegistry ∧
    (∀ now2 c2 : String, (castVote s now2 voterID c2).ret = true →
      (castVote s now2 voterID c2).state.voterRegistry
        = (castVote s now voterID c).state.voterRegistry ∧
      (castVote s now2 voterID c2).state.fraudLogs
        = (castVote s now voterID c).state.fraudLogs) ∧
    (∀ now2 v2 : String, (castVote s now2 v2 c).ret = true →
      (castVote s now2 v2 c).state.voteCounts = (castVote s now voterID c).state.voteCounts) ∧
    (∀ now2 v2 c2 : String, (castVote (castVote s now voterID c).state now2 v2 c2).ret = true →
      run s [Op.vote now voterID c, Op.vote now2 v2 c2]
        = run s [Op.vote now voterID c2, Op.vote now2 v2 c]) := by
  obtain ⟨hlen, hnew, hcand⟩ := (castVote_ret_iff s now voterID c).1 h
  have hst := castVote_accepted s now voterID c hlen hnew hcand
  refine ⟨?_, ?_, ?_, ?_, ?_, ?_, ?_⟩
  · rw [hst]
    exact keys_mapUpdate_of_mem _ _ _ hcand
  · intro k hk
    rw [hst]
    exact mapFind_mapUpdate_of_ne _ _ _ _ hk
  · rw [hst]
  · rw [hst]
  · intro now2 c2 h2
    obtain ⟨_, _, hcand2⟩ := (castVote_ret_iff s now2 voterID c2).1 h2
    rw [hst, castVote_accepted s now2 voterID c2 hlen hnew hcand2]
    exact ⟨rfl, rfl⟩
  · intro now2 v2 h2
    obtain ⟨hlen2, hnew2, _⟩ := (castVote_ret_iff s now2 v2 c).1 h2
    rw [hst, castVote_accepted s now2 v2 c hlen2 hnew2 hcand]
  · intro now2 v2 c2 h2
    obtain ⟨hlen2, hnew2, hcand2⟩ := (castVote_ret_iff _ now2 v2 c2).1 h2
    rw [hst] at hnew2 hcand2
    have hc2 : c2 ∈ keys s.voteCounts := by
      rw [← keys_mapUpdate_of_mem s.voteCounts c (fun v => v + 1) hcand]
      exact hcand2
    have hst2 := castVote_accepted s now voterID c2 hlen hnew hc2
    have hnew3 : v2 ∉ (castVote s now voterID c2).state.voterRegistry := by
      rw [hst2]
      exact hnew2
    have hc3 : c ∈ keys (castVote s now voterID c2).state.voteCounts := by
      rw [hst2]
      show c ∈ keys (mapUpdate s.voteCounts c2 (fun v => v + 1))
      rw [keys_mapUpdate_of_mem _ _ _ hc2]
      exact hcand
    have hA := castVote_accepted _ now2 v2 c2 hlen2
      (show v2 ∉ (castVote s now voterID c).state.voterRegistry by rw [hst]; exact hnew2)
      (show c2 ∈ keys (castVote s now voterID c).state.voteCounts by rw [hst]; exact hcand2)
    have hB := castVote_accepted _ now2 v2 c hlen2 hnew3 hc3
    simp only [run, step]
    rw [hA, hB, hst, hst2]
    simp only [mapUpdate_comm s.voteCounts c c2 (fun v => v + 1) hcand hc2]

/-- Witness of C18: voter001 and voter002 vote for Candidate1 and Candidate2, or the other way
round; the two final states are equal. -/
theorem accepted_vote_frame_witness :
    run construct [Op.vote "t0" "voter001" "Candidate1", Op.vote "t1" "voter002" "Candidate2"]
      = run construct
        [Op.vote "t0" "voter001" "Candidate2", Op.vote "t1" "voter002" "Candidate1"] :=
  (accepted_vote_frame construct "t0" "voter001" "Candidate1" (by decide)).2.2.2.2.2.2
    "t1" "voter002" "Candidate2" (by decide)

/-- C19: one voter, one vote: in every state reachable from construction by `addCandidate`,
`castVote` and `resetSystem` calls, the sum of all candidate counts equals the number of
distinct voter IDs in the voter registry, and every voter ID in the registry has length at
least 5. -/
theorem one_voter_one_vote (ops : List Op) :
    ((run construct ops).voteCounts.map Prod.snd).sum
      = ((run construct ops).voterRegistry.card : Int) ∧
    totalVotes (run construct ops) = ((run construct ops).voterRegistry.card : Int) ∧
    ∀ v ∈ (run construct ops).voterRegistry, 5 ≤ v.length := by
  have h := run_invariant ops construct
    (by
      rw [construct_voteCounts, construct_voterRegistry]
      decide)
    (by
      rw [construct_voterRegistry]
      intro v hv
      simp at hv)
  exact ⟨h.1, by rw [totalVotes, tally_totalVotes, h.1], h.2⟩

/-- C20: for every ledger whose counts are not negative and whose total is positive, with
percentages over the rationals: the percentage of every candidate lies in [0, 100], the
percentages of all candidates add up to exactly 100, every bar length is the integer
floor(percentage / 5), lies in [0, 20] and so is never negative, and the bar lengths add up to
at most 20; this holds for the ledger and for the rows that `displayStats` prints. -/
theorem percentages_and_bars (s : State) (hnn : ∀ p ∈ s.voteCounts, 0 ≤ p.2)
    (hpos : 0 < totalVotes s) :
    (∀ p ∈ s.voteCounts,
      0 ≤ percentage p.2 (totalVotes s) ∧ percentage p.2 (totalVotes s) ≤ 100 ∧
      barLength (percentage p.2 (totalVotes s)) = ⌊percentage p.2 (totalVotes s) / 5⌋ ∧
      0 ≤ barLength (percentage p.2 (totalVotes s)) ∧
      barLength (percentage p.2 (totalVotes s)) ≤ 20) ∧
    (s.voteCounts.map (fun p => percentage p.2 (totalVotes s))).sum = 100 ∧
    (s.voteCounts.map (fun p => barLength (percentage p.2 (totalVotes s)))).sum ≤ 20 ∧
    ∃ (rows : List ResultRow) (lead : String) (maxVotes : Int) (pct : ℚ),
      (displayStats s).report = Report.Results rows lead maxVotes pct ∧
      (∀ r ∈ rows, 0 ≤ r.percent ∧ r.percent ≤ 100 ∧ r.bar = ⌊r.percent / 5⌋ ∧
        0 ≤ r.bar ∧ r.bar ≤ 20) ∧
      (rows.map (fun r => r.percent)).sum = 100 ∧
      (rows.map (fun r => r.bar)).sum ≤ 20 ∧
      0 ≤ pct ∧ pct ≤ 100 := by
  have hTsum : totalVotes s = (s.voteCounts.map Prod.snd).sum := by
    rw [totalVotes, tally_totalVotes]
  have hle : ∀ p ∈ s.voteCounts, p.2 ≤ totalVotes s := by
    intro p hp
    rw [hTsum]
    apply List.single_le_sum
    · intro x hx
      obtain ⟨q, hq, rfl⟩ := List.mem_map.1 hx
      exact hnn q hq
    · exact List.mem_map_of_mem Prod.snd hp
  have hpb : ∀ p ∈ s.voteCounts,
      0 ≤ percentage p.2 (totalVotes s) ∧ percentage p.2 (totalVotes s) ≤ 100 :=
    fun p hp => percentage_bounds p.2 _ (hnn p hp) (hle p hp) hpos
  have hall : ∀ p ∈ s.voteCounts,
      0 ≤ percentage p.2 (totalVotes s) ∧ percentage p.2 (totalVotes s) ≤ 100 ∧
      barLength (percentage p.2 (totalVotes s)) = ⌊percentage p.2 (totalVotes s) / 5⌋ ∧
      0 ≤ barLength (percentage p.2 (totalVotes s)) ∧
      barLength (percentage p.2 (totalVotes s)) ≤ 20 := by
    intro p hp
    obtain ⟨a, b⟩ := hpb p hp
    obtain ⟨c, d, e, _⟩ := barLength_bounds _ a b
    exact ⟨a, b, c, d, e⟩
  have hsum : (s.voteCounts.map (fun p => percentage p.2 (totalVotes s))).sum = 100 := by
    rw [sum_percentage, ← hTsum, percentage_self _ hpos]
  have hbars : (s.voteCounts.map (fun p => barLength (percentage p.2 (totalVotes s)))).sum
      ≤ 20 := by
    have h1 := sum_barLength_le s.voteCounts (totalVotes s) hpb
    rw [hsum] at h1
    have h2 : (((s.voteCounts.map
        (fun p => barLength (percentage p.2 (totalVotes s)))).sum : Int) : ℚ) ≤ 20 := by
      linarith
    exact_mod_cast h2
  have hp := sortedResults_perm s.voteCounts
  obtain ⟨_, hmaxle, before, after, hdec, _⟩ := tally_leading_of_pos s.voteCounts hpos
  have hmem : ((tally s.voteCounts).leadingCandidate, (tally s.voteCounts).maxVotes)
      ∈ s.voteCounts := by
    have hin : ((tally s.voteCounts).leadingCandidate, (tally s.voteCounts).maxVotes)
        ∈ before ++ ((tally s.voteCounts).leadingCandidate, (tally s.voteCounts).maxVotes)
          :: after := by
      simp
    rw [← hdec] at hin
    exact hin
  have hrows : ∀ r ∈ (sortedResults s.voteCounts).map (resultRow (totalVotes s)),
      0 ≤ r.percent ∧ r.percent ≤ 100 ∧ r.bar = ⌊r.percent / 5⌋ ∧ 0 ≤ r.bar ∧ r.bar ≤ 20 := by
    intro r hr
    obtain ⟨p, hps, hpr⟩ := List.mem_map.1 hr
    rw [← hpr]
    exact hall p (hp.mem_iff.1 hps)
  have hrsum : (((sortedResults s.voteCounts).map (resultRow (totalVotes s))).map
      (fun r => r.percent)).sum = 100 := by
    rw [List.map_map, ← hsum]
    exact ((hp.map (fun p => percentage p.2 (totalVotes s))).sum_eq)
  have hrbars : (((sortedResults s.voteCounts).map (resultRow (totalVotes s))).map
      (fun r => r.bar)).sum ≤ 20 := by
    rw [List.map_map]
    refine le_trans (le_of_eq ?_) hbars
    exact ((hp.map (fun p => barLength (percentage p.2 (totalVotes s)))).sum_eq)
  have hlead := hpb _ hmem
  refine ⟨hall, hsum, hbars, ?_⟩
  rw [displayStats_of_pos s hpos]
  exact ⟨_, _, _, _, rfl, hrows, hrsum, hrbars, hlead⟩

/-- Witness of C20: three candidates with one vote each; every bar has length 6, 18 in all. -/
theorem percentages_and_bars_witness :
    (∀ p ∈ [(("Candidate1", 1) : String × Int), ("Candidate2", 1), ("Candidate3", 1)],
      (0 : Int) ≤ p.2) ∧
    ([(("Candidate1", 1) : String × Int), ("Candidate2", 1), ("Candidate3", 1)].map
      (fun p => percentage p.2 (totalVotes
        { voteCounts := [("Candidate1", 1), ("Candidate2", 1), ("Candidate3", 1)]
          voterRegistry := ∅
          fraudLogs := [] }))).sum = 100 :=
  ⟨by decide,
    (percentages_and_bars
      { voteCounts := [("Candidate1", 1), ("Candidate2", 1), ("Candidate3", 1)]
        voterRegistry := ∅
        fraudLogs := [] } (by decide) (by decide)).2.1⟩

end VotingSystem
